import Mathlib

/-!
Shallow embedding of the valuation / aggregation / technical-analysis core of
the portfolio dashboard (TypeScript sources), together with proofs settling the
frozen claims about it.

Conventions of the embedding:
* JavaScript `number` is modelled as `ℚ`; `Number.isFinite` checks are then
  always true (there is no NaN/Infinity in `ℚ`) and are noted where dropped.
* `T | null` / optional fields are modelled as `Option T`.
* A JS plain object / `Map` used as a string-keyed dictionary is modelled as an
  association list `List (String × _)` with JS semantics: `recordGet` is
  property lookup, `recordSet` is assignment (replace in place, else append,
  matching insertion-order preservation), `recordAdd` is `m[k] = (m[k] ?? 0) + v`.
* `String.prototype.toUpperCase` / `toLowerCase` (ASCII range, the only one the
  data uses) are modelled by per-character maps `jsToUpper` / `jsToLower`;
  `endsWith` / `startsWith` / `includes` by the corresponding list predicates.
-/

def jsToUpper (s : String) : String := String.mk (s.data.map Char.toUpper)

def jsToLower (s : String) : String := String.mk (s.data.map Char.toLower)

/-- `s.charAt(0).toUpperCase() + s.slice(1).toLowerCase()`. -/
def capitalizeJs (s : String) : String :=
  match s.data with
  | [] => ""
  | c :: cs => String.mk (c.toUpper :: cs.map Char.toLower)

def jsEndsWith (s suffixStr : String) : Bool := suffixStr.data.isSuffixOf s.data

def jsStartsWith (s prefixStr : String) : Bool := prefixStr.data.isPrefixOf s.data

def jsIncludesChar (s : String) (c : Char) : Bool := s.data.contains c

def recordGet {α : Type} (m : List (String × α)) (k : String) : Option α :=
  (m.find? (fun p => p.1 == k)).map Prod.snd

def recordSet {α : Type} (m : List (String × α)) (k : String) (v : α) :
    List (String × α) :=
  if m.any (fun p => p.1 == k) then
    m.map (fun p => if p.1 == k then (k, v) else p)
  else m ++ [(k, v)]

def recordAdd (m : List (String × ℚ)) (k : String) (v : ℚ) : List (String × ℚ) :=
  recordSet m k ((recordGet m k).getD 0 + v)

/-- `Array.from(new Set(xs))`: deduplication keeping first occurrences. -/
def dedupFirst (l : List String) : List String :=
  l.foldl (fun acc x => if x ∈ acc then acc else acc ++ [x]) []

namespace TechnicalIndicators

/-- `frontend/lib/technicalIndicators.ts` declares its own three-state
`TrendState` type: `'BULLISH' | 'BEARISH' | 'NEUTRAL'` (no `UNKNOWN`). -/
inductive TrendState where
  | BULLISH
  | BEARISH
  | NEUTRAL
deriving DecidableEq, Repr

/-- `resolveTrendState` of `frontend/lib/technicalIndicators.ts`: when all four
inputs are non-null it tests the bullish then the bearish condition; every
other case (including any null input) falls through to `NEUTRAL`. -/
def resolveTrendState (macdLine macdSignal rsi14 momentum20 : Option ℚ)
    (rsiBullThreshold : ℚ) : TrendState :=
  match macdLine, macdSignal, rsi14, momentum20 with
  | some m, some s, some r, some mo =>
    if m > s ∧ r ≥ rsiBullThreshold ∧ mo > 0 then .BULLISH
    else if m < s ∧ r < 40 ∧ mo < 0 then .BEARISH
    else .NEUTRAL
  | _, _, _, _ => .NEUTRAL

/-- `rs = avgLoss === 0 ? Infinity : avgGain/avgLoss; rsi = 100 - 100/(1+rs)`:
the infinite-relative-strength case evaluates to exactly 100. -/
def rsiFromAverages (avgGain avgLoss : ℚ) : ℚ :=
  if avgLoss = 0 then 100 else 100 - 100 / (1 + avgGain / avgLoss)

/-- Wilder recurrence of `calculateRSI`: from the running averages, one RSI
value per remaining (gain, loss) pair. -/
def wilderRsis (period : ℕ) (avgGain avgLoss : ℚ) :
    List (ℚ × ℚ) → List ℚ
  | [] => []
  | gl :: rest =>
    let ag := (avgGain * ((period : ℚ) - 1) + gl.1) / period
    let al := (avgLoss * ((period : ℚ) - 1) + gl.2) / period
    rsiFromAverages ag al :: wilderRsis period ag al rest

/-- `values[i] - values[i-1]` for `i = 1 .. length-1`. -/
def deltasOf (values : List ℚ) : List ℚ :=
  List.zipWith (fun prev next => next - prev) values values.tail

def gainOf (d : ℚ) : ℚ := if 0 < d then d else 0

def lossOf (d : ℚ) : ℚ := if d < 0 then -d else 0

/-- `calculateRSI` of `frontend/lib/technicalIndicators.ts`: `null` for the
first `period` indices; the seed average gain/loss is the simple mean of the
first `period` deltas, later indices use the Wilder recurrence. -/
def calculateRSI (values : List ℚ) (period : ℕ) : List (Option ℚ) :=
  if values = [] then []
  else if period ≤ 1 then values.map (fun _ => none)
  else if values.length ≤ period then values.map (fun _ => none)
  else
    let gains := (deltasOf values).map gainOf
    let losses := (deltasOf values).map lossOf
    let avgGain := (gains.take period).sum / period
    let avgLoss := (losses.take period).sum / period
    (List.replicate period (none : Option ℚ))
      ++ some (rsiFromAverages avgGain avgLoss)
        :: (wilderRsis period avgGain avgLoss
              ((gains.drop period).zip (losses.drop period))).map some

end TechnicalIndicators

/-- `TrendState` of `frontend/types.ts` (four states). -/
inductive TrendState where
  | BULLISH
  | BEARISH
  | NEUTRAL
  | UNKNOWN
deriving DecidableEq, Repr

inductive AssetType where
  | Stock
  | STOCK
  | ETF
  | Crypto
  | CRYPTO
  | Cash
  | Forex
  | Currency
deriving DecidableEq, Repr

structure CurrencyPair where
  id : String
  symbol : String
  rate_to_eur : Option ℚ
deriving DecidableEq, Repr

/-- `Asset` of `frontend/types.ts`, restricted to the fields the aggregation
writes and the claims read.  UI passthrough fields (`data_status`,
`last_update`, `pe_ratio`, `market_cap`, the `performance` block and the
technical bundle except `trend_state`) are omitted: no claim touches them.
`market_value_eur` and `quantity_current` are always set by the aggregator, so
they are carried as plain `ℚ`. -/
structure Asset where
  id : String
  name : String
  ticker : String
  price : ℚ
  currency : String
  type : AssetType
  constituents : List (String × ℚ)
  asset_class : Option String
  quantity : Option ℚ
  quantity_buy : Option ℚ
  quantity_current : ℚ
  pru : Option ℚ
  target_weight_pct : Option ℚ
  market_value_eur : ℚ
  invested_value_eur : Option ℚ
  pnl_eur : Option ℚ
  pnl_pct : Option ℚ
  portfolio_ids : List String
  portfolio_names : List String
  trend_state : TrendState
deriving DecidableEq, Repr

namespace PortfolioData

/-- `MarketWatchRow` of the aggregation module, restricted to the fields read
by `aggregateByTicker` and `resolveTrendState` (the omitted ones —
`data_status`, `last_update`, `pe_ratio`, `market_cap`, position-shaped
fallback columns, `perf_*`, `ma200_*`, `trend_slope`, `volatility_30d`,
`macd_hist`, `trend_changed` — are copied through untouched). -/
structure MarketWatchRow where
  id : Option String
  name : Option String
  ticker : Option String
  last_price : Option ℚ
  currency : Option String
  type : Option String
  geo_coverage : Option (List (String × ℚ))
  asset_class : Option String
  rsi_14 : Option ℚ
  macd_line : Option ℚ
  macd_signal : Option ℚ
  momentum_20 : Option ℚ
  trend_state : Option TrendState
deriving DecidableEq, Repr

structure PortfolioPositionRow where
  portfolio_id : String
  ticker : String
  name : Option String
  instrument_type : Option String
  currency : Option String
  quantity_buy : Option ℚ
  quantity_current : Option ℚ
  pru : Option ℚ
  target_weight_pct : Option ℚ
  geo_coverage : Option (List (String × ℚ))
deriving DecidableEq, Repr

/-- `TICKER_SUFFIX_TO_COUNTRY`, in source (insertion) order. -/
def tickerSuffixToCountry : List (String × String) :=
  [(".PA", "FR"), (".DE", "DE"), (".UK", "GB"), (".L", "GB"), (".JP", "JP"),
   (".T", "JP"), (".SW", "CH"), (".VX", "CH"), (".AS", "NL"), (".MI", "IT"),
   (".MC", "ES"), (".TO", "CA"), (".AX", "AU"), (".HK", "CN"), (".SS", "CN"),
   (".SZ", "CN"), (".KS", "KR"), (".TW", "TW")]

/-- `getCountryFromTicker`: suffix convention first, then the index/forex
exclusions, then the 1–5 capital-letter US default. -/
def getCountryFromTicker (ticker : String) : Option String :=
  if ticker = "" then none
  else
    let upperTicker := jsToUpper ticker
    match tickerSuffixToCountry.find? (fun p => jsEndsWith upperTicker p.1) with
    | some p => some p.2
    | none =>
      if jsStartsWith upperTicker "^" || jsIncludesChar upperTicker '=' then none
      else if 1 ≤ upperTicker.data.length ∧ upperTicker.data.length ≤ 5 ∧
          upperTicker.data.all (fun c => decide ('A' ≤ c ∧ c ≤ 'Z')) then some "US"
      else none

/-- `normalizeCoveragePercentages`: ticker-derived fallback when no map is
supplied, keep only positive weights, then either the fraction branch
(`total ≤ 1.5`: multiply by 100) or the percentage branch (divide by the
total and multiply by 100). -/
def normalizeCoveragePercentages (coverage : Option (List (String × ℚ)))
    (ticker : String) : List (String × ℚ) :=
  let fallbackCountry := getCountryFromTicker ticker
  let raw : Option (List (String × ℚ)) :=
    match coverage with
    | some c => some c
    | none => fallbackCountry.map (fun c => [(c, 100)])
  match raw with
  | none => []
  | some rawMap =>
    let positiveEntries := rawMap.filter (fun p => decide (0 < p.2))
    if positiveEntries = [] then []
    else
      let total := (positiveEntries.map Prod.snd).sum
      positiveEntries.foldl (fun normalized p =>
        recordSet normalized (jsToUpper p.1)
          (if total ≤ 3/2 then p.2 * 100 else p.2 / total * 100)) []

def normalizeAssetType (value : Option String) : AssetType :=
  match value with
  | none => .Stock
  | some v =>
    if v = "" then .Stock
    else
      let upper := jsToUpper v
      if upper = "ETF" then .ETF
      else if upper = "CRYPTO" then .CRYPTO
      else if upper = "CASH" then .Cash
      else if upper = "FOREX" then .Forex
      else if upper = "CURRENCY" then .Currency
      else if upper = "STOCK" then .Stock
      else .Stock

/-- `resolveTrendState` of the aggregation module (row-based): `UNKNOWN` when
any of the four indicator fields is null, otherwise the stored trend state
collapsed onto `BULLISH` / `BEARISH` / `NEUTRAL`. -/
def resolveTrendState (row : MarketWatchRow) : TrendState :=
  if row.macd_line ≠ none ∧ row.macd_signal ≠ none ∧
      row.rsi_14 ≠ none ∧ row.momentum_20 ≠ none then
    if row.trend_state = some .BULLISH then .BULLISH
    else if row.trend_state = some .BEARISH then .BEARISH
    else .NEUTRAL
  else .UNKNOWN

/-- `toCurrencyRateMap`: the map is seeded with `EUR ↦ 1`, then every currency
row with a non-null rate is inserted under its upper-cased id (the
`Number.isFinite` guard is always true over `ℚ`). -/
def toCurrencyRateMap (currencies : List CurrencyPair) : List (String × ℚ) :=
  currencies.foldl (fun map currency =>
    match currency.rate_to_eur with
    | some rate => recordSet map (jsToUpper currency.id) rate
    | none => map) [("EUR", 1)]

/-- `getRateToEur`: a falsy (null or empty) currency and a code absent from
the table both default to 1. -/
def getRateToEur (currency : Option String) (rates : List (String × ℚ)) : ℚ :=
  match currency with
  | none => 1
  | some c => if c = "" then 1 else (recordGet rates (jsToUpper c)).getD 1

/-- One step of the `grouped` Map construction in `aggregateByTicker`:
`grouped.set(key, (grouped.get(key) ?? []).concat(position))`. -/
def groupStep (acc : List (String × List PortfolioPositionRow))
    (position : PortfolioPositionRow) :
    List (String × List PortfolioPositionRow) :=
  let key := jsToUpper position.ticker
  if acc.any (fun g => g.1 == key) then
    acc.map (fun g => if g.1 == key then (g.1, g.2 ++ [position]) else g)
  else acc ++ [(key, [position])]

def groupByTicker (positions : List PortfolioPositionRow) :
    List (String × List PortfolioPositionRow) :=
  positions.foldl groupStep []

/-- The per-ticker accumulator of `aggregateByTicker`'s inner loop. -/
structure AggAcc where
  totalQuantityCurrent : ℚ
  totalQuantityBuy : ℚ
  weightedPruNumerator : ℚ
  marketValueEur : ℚ
  investedValueEur : ℚ
  investedSamples : ℕ
  targetWeightedNumerator : ℚ
  targetWeightedDenominator : ℚ
  geoExposureByCountry : List (String × ℚ)
deriving DecidableEq, Repr

def AggAcc.init : AggAcc := ⟨0, 0, 0, 0, 0, 0, 0, 0, []⟩

def quantityCurrentOf (position : PortfolioPositionRow) : ℚ :=
  ((position.quantity_current).orElse (fun _ => position.quantity_buy)).getD 0

def quantityBuyOf (position : PortfolioPositionRow) : ℚ :=
  ((position.quantity_buy).orElse (fun _ => position.quantity_current)).getD 0

def positionFxRate (market : Option MarketWatchRow) (rates : List (String × ℚ))
    (position : PortfolioPositionRow) : ℚ :=
  let currency :=
    ((position.currency).orElse (fun _ => market.bind MarketWatchRow.currency)).getD "EUR"
  getRateToEur (some currency) rates

def positionValueEur (market : Option MarketWatchRow) (rates : List (String × ℚ))
    (position : PortfolioPositionRow) : ℚ :=
  quantityCurrentOf position * (market.bind MarketWatchRow.last_price).getD 0 *
    positionFxRate market rates position

/-- The body of `tickerPositions.forEach(...)` in `aggregateByTicker`. -/
def aggStep (market : Option MarketWatchRow) (rates : List (String × ℚ))
    (ticker : String) (acc : AggAcc) (position : PortfolioPositionRow) : AggAcc :=
  let quantityCurrent := quantityCurrentOf position
  let quantityBuy := quantityBuyOf position
  let fxRate := positionFxRate market rates position
  let valueEur := positionValueEur market rates position
  let invested : ℚ × ℚ × ℕ :=
    match position.pru with
    | some pru =>
      if 0 < quantityBuy then (pru * quantityBuy, pru * quantityBuy * fxRate, 1)
      else (0, 0, 0)
    | none => (0, 0, 0)
  let target : ℚ × ℚ :=
    match position.target_weight_pct with
    | some tw =>
      let weightingValue := if 0 < valueEur then valueEur else max quantityCurrent 1
      (tw * weightingValue, weightingValue)
    | none => (0, 0)
  let coverage := normalizeCoveragePercentages position.geo_coverage ticker
  { totalQuantityCurrent := acc.totalQuantityCurrent + quantityCurrent
    totalQuantityBuy := acc.totalQuantityBuy + quantityBuy
    weightedPruNumerator := acc.weightedPruNumerator + invested.1
    marketValueEur := acc.marketValueEur + valueEur
    investedValueEur := acc.investedValueEur + invested.2.1
    investedSamples := acc.investedSamples + invested.2.2
    targetWeightedNumerator := acc.targetWeightedNumerator + target.1
    targetWeightedDenominator := acc.targetWeightedDenominator + target.2
    geoExposureByCountry :=
      coverage.foldl (fun geo p => recordAdd geo p.1 (valueEur * (p.2 / 100)))
        acc.geoExposureByCountry }

/-- One consolidated `Asset` for one ticker group, as the body of
`grouped.forEach(...)` pushes it. -/
def buildAsset (marketByTicker : List (String × MarketWatchRow))
    (portfolioNameById : List (String × String)) (rates : List (String × ℚ))
    (ticker : String) (tickerPositions : List PortfolioPositionRow) : Asset :=
  let market := recordGet marketByTicker ticker
  let portfolioIds := dedupFirst (tickerPositions.map (·.portfolio_id))
  let portfolioNames := portfolioIds.map (fun i => (recordGet portfolioNameById i).getD i)
  let acc := tickerPositions.foldl (aggStep market rates ticker) AggAcc.init
  let geoExposureTotal := (acc.geoExposureByCountry.map Prod.snd).sum
  let constituents :=
    if 0 < geoExposureTotal then
      acc.geoExposureByCountry.map (fun p => (p.1, p.2 / geoExposureTotal * 100))
    else normalizeCoveragePercentages (market.bind MarketWatchRow.geo_coverage) ticker
  let avgCost :=
    if 0 < acc.totalQuantityBuy then
      some (acc.weightedPruNumerator / acc.totalQuantityBuy)
    else none
  let targetWeight :=
    if 0 < acc.targetWeightedDenominator then
      some (acc.targetWeightedNumerator / acc.targetWeightedDenominator)
    else none
  let investedValue := if 0 < acc.investedSamples then some acc.investedValueEur else none
  let pnlEur := investedValue.map (fun v => acc.marketValueEur - v)
  let pnlPct :=
    match investedValue with
    | some v => if 0 < v then some ((acc.marketValueEur / v - 1) * 100) else none
    | none => none
  let trendState :=
    match market with
    | some m => resolveTrendState m
    | none => TrendState.UNKNOWN
  { id := (market.bind MarketWatchRow.id).getD ticker
    name := (market.bind MarketWatchRow.name).getD
      (((tickerPositions.head?).bind PortfolioPositionRow.name).getD ticker)
    ticker := ticker
    price := (market.bind MarketWatchRow.last_price).getD 0
    currency := (market.bind MarketWatchRow.currency).getD
      (((tickerPositions.head?).bind PortfolioPositionRow.currency).getD "EUR")
    type := normalizeAssetType
      ((market.bind MarketWatchRow.type).orElse
        (fun _ => (tickerPositions.head?).bind PortfolioPositionRow.instrument_type))
    constituents := constituents
    asset_class := market.bind MarketWatchRow.asset_class
    quantity := some acc.totalQuantityCurrent
    quantity_buy := if acc.totalQuantityBuy = 0 then none else some acc.totalQuantityBuy
    quantity_current := acc.totalQuantityCurrent
    pru := avgCost
    target_weight_pct := targetWeight
    market_value_eur := acc.marketValueEur
    invested_value_eur := investedValue
    pnl_eur := pnlEur
    pnl_pct := pnlPct
    portfolio_ids := portfolioIds
    portfolio_names := portfolioNames
    trend_state := trendState }

/-- `aggregateByTicker`.  The source ends with a case-insensitive
locale-aware sort of the output by display name; the sort only permutes the
list and every claim below is permutation-invariant, so it is omitted here. -/
def aggregateByTicker (positions : List PortfolioPositionRow)
    (marketByTicker : List (String × MarketWatchRow))
    (portfolioNameById : List (String × String)) (rates : List (String × ℚ)) :
    List Asset :=
  (groupByTicker positions).map
    (fun g => buildAsset marketByTicker portfolioNameById rates g.1 g.2)

/-- The contribution of one position to `weightedPruNumerator`. -/
def pruContribOf (position : PortfolioPositionRow) : ℚ :=
  match position.pru with
  | some pru => if 0 < quantityBuyOf position then pru * quantityBuyOf position else 0
  | none => 0

/-- The contribution of one position to `investedValueEur`. -/
def investedContribOf (market : Option MarketWatchRow) (rates : List (String × ℚ))
    (position : PortfolioPositionRow) : ℚ :=
  match position.pru with
  | some pru =>
    if 0 < quantityBuyOf position then
      pru * quantityBuyOf position * positionFxRate market rates position
    else 0
  | none => 0

/-- The contribution of one position to `investedSamples`. -/
def investedSampleOf (position : PortfolioPositionRow) : ℕ :=
  match position.pru with
  | some _ => if 0 < quantityBuyOf position then 1 else 0
  | none => 0

end PortfolioData

inductive DriftStatus where
  | OK
  | WARNING
  | BREACH
deriving DecidableEq, Repr

namespace GovernanceWidget

structure GovernanceTarget where
  id : String
  portfolio_id : String
  asset_class : String
  target_pct : ℚ
  tolerance_band : ℚ
deriving DecidableEq, Repr

structure AllocationData where
  asset_class : String
  current_pct : ℚ
  target_pct : ℚ
  tolerance_band : ℚ
  drift : ℚ
  drift_status : DriftStatus
deriving DecidableEq, Repr

/-- `normalizeAssetClass` of `GovernanceWidget.tsx`: falsy input resolves to
null, the Equity/Bond/Cash families are mapped to canonical names, anything
else is capitalized (first letter upper, rest lower). -/
def normalizeAssetClass (assetClass : Option String) : Option String :=
  match assetClass with
  | none => none
  | some s =>
    if s = "" then none
    else
      let upper := jsToUpper s
      if upper = "EQUITY" ∨ upper = "STOCK" ∨ upper = "STOCKS" then some "Equity"
      else if upper = "BOND" ∨ upper = "BONDS" ∨ upper = "FIXED_INCOME" then some "Bond"
      else if upper = "CASH" ∨ upper = "CASH_EQUIVALENTS" then some "Cash"
      else some (capitalizeJs s)

/-- `calculateDriftStatus` of `GovernanceWidget.tsx` (nested-if form). -/
def calculateDriftStatus (drift toleranceBand : ℚ) : DriftStatus :=
  let absDrift := |drift|
  let halfBand := toleranceBand / 2
  if absDrift ≤ toleranceBand then
    if absDrift ≤ halfBand then .OK else .WARNING
  else .BREACH

/-- `(asset.price || 0) * (asset.quantity || 1)`: the widget values an asset
at price times quantity, a missing or zero quantity defaulting to 1 (the
quantity is always set by the aggregator, but the widget's own default is kept
faithfully). -/
def assetValue (a : Asset) : ℚ :=
  a.price * (match a.quantity with
             | none => 1
             | some q => if q = 0 then 1 else q)

/-- The grouping key of the widget: the normalized asset class, `UNKNOWN` when
none resolves. -/
def classKey (a : Asset) : String :=
  (normalizeAssetClass a.asset_class).getD "UNKNOWN"

structure AllocationResult where
  allocationData : List AllocationData
  hasBreach : Bool
  totalTargetPct : ℚ
  unknownPct : ℚ
deriving DecidableEq, Repr

def AllocationResult.empty : AllocationResult := ⟨[], false, 0, 0⟩

/-- `Sum(price * quantity)` over all assets, the widget's total portfolio
value (quantity defaulting to 1). -/
def totalValueOf (assets : List Asset) : ℚ := (assets.map assetValue).sum

/-- The `allocationByClass` reduce: per normalized class (or `UNKNOWN`), the
summed widget value. -/
def allocationByClassOf (assets : List Asset) : List (String × ℚ) :=
  assets.foldl (fun acc a => recordAdd acc (classKey a) (assetValue a)) []

def unknownValueOf (assets : List Asset) : ℚ :=
  (recordGet (allocationByClassOf assets) "UNKNOWN").getD 0

def unknownPctOf (assets : List Asset) : ℚ :=
  if 0 < totalValueOf assets then unknownValueOf assets / totalValueOf assets * 100 else 0

/-- `normalizeAssetClass(target.asset_class) || target.asset_class`. -/
def normalizedClassOf (t : GovernanceTarget) : String :=
  (normalizeAssetClass (some t.asset_class)).getD t.asset_class

/-- The allocation entry pushed for one governance target. -/
def targetEntry (assets : List Asset) (t : GovernanceTarget) : AllocationData :=
  let currentValue := (recordGet (allocationByClassOf assets) (normalizedClassOf t)).getD 0
  let currentPct := if 0 < totalValueOf assets then currentValue / totalValueOf assets * 100 else 0
  let drift := currentPct - t.target_pct
  { asset_class := normalizedClassOf t
    current_pct := currentPct
    target_pct := t.target_pct
    tolerance_band := t.tolerance_band
    drift := drift
    drift_status := calculateDriftStatus drift t.tolerance_band }

/-- The `UNKNOWN` bucket entry appended when unclassified value exists. -/
def unknownEntryOf (assets : List Asset) : AllocationData :=
  { asset_class := "UNKNOWN"
    current_pct := unknownPctOf assets
    target_pct := 0
    tolerance_band := 0
    drift := unknownPctOf assets
    drift_status := if 10 < unknownPctOf assets then .BREACH else .WARNING }

/-- The no-target fallback entry for one class of `allocationByClass`. -/
def fallbackEntry (assets : List Asset) (kv : String × ℚ) : AllocationData :=
  { asset_class := kv.1
    current_pct := if 0 < totalValueOf assets then kv.2 / totalValueOf assets * 100 else 0
    target_pct := 0
    tolerance_band := 5
    drift := 0
    drift_status := .OK }

/-- The `useMemo` body of `GovernanceWidget.tsx` computing
`{allocationData, hasBreach, totalTargetPct, unknownPct}`, with its `let`
bindings lifted into the named definitions above.  The final sort of the
entries by asset-class name only permutes the list (every claim below is
permutation-invariant) and is omitted. -/
def allocationData (assets : List Asset) (targets : List GovernanceTarget) :
    AllocationResult :=
  if assets = [] then .empty
  else if totalValueOf assets = 0 then .empty
  else
    let allocation := targets.map (targetEntry assets)
    let hasBreach := allocation.any (fun e => e.drift_status == .BREACH)
    let allocation2 :=
      if 0 < unknownValueOf assets then allocation ++ [unknownEntryOf assets] else allocation
    let hasBreach2 :=
      hasBreach || decide (0 < unknownValueOf assets ∧ 10 < unknownPctOf assets)
    let allocation3 :=
      if allocation2 = [] then (allocationByClassOf assets).map (fallbackEntry assets)
      else allocation2
    ⟨allocation3, hasBreach2, (targets.map (·.target_pct)).sum, unknownPctOf assets⟩

end GovernanceWidget

namespace GovernanceWidgetV1

/-- `calculateDriftStatus` of the earlier governance widget (else-if form). -/
def calculateDriftStatus (drift toleranceBand : ℚ) : DriftStatus :=
  let absDrift := |drift|
  let halfBand := toleranceBand / 2
  let fullBand := toleranceBand
  if absDrift ≤ halfBand then .OK
  else if absDrift ≤ fullBand then .WARNING
  else .BREACH

end GovernanceWidgetV1

/-- Cast from the three-state `TrendState` of `technicalIndicators.ts` into the
four-state `TrendState` of `types.ts` (the obvious inclusion), used to compare
the two `resolveTrendState` implementations. -/
def trend3ToTrendState : TechnicalIndicators.TrendState → TrendState
  | .BULLISH => TrendState.BULLISH
  | .BEARISH => TrendState.BEARISH
  | .NEUTRAL => TrendState.NEUTRAL

/-- Stated from the claim words, for comparison with the code: the weighted
average cost `Σ(pru_i × quantityBuy_i) / Σ(quantityBuy_i)` where BOTH sums
range over exactly the positions with a known PRU and positive acquired
quantity, and `none` when no position contributes. -/
def claimAvgCost (tickerPositions : List PortfolioData.PortfolioPositionRow) : Option ℚ :=
  let contributing := tickerPositions.filter
    (fun p => p.pru.isSome && decide (0 < PortfolioData.quantityBuyOf p))
  if contributing = [] then none
  else some ((contributing.map
      (fun p => p.pru.getD 0 * PortfolioData.quantityBuyOf p)).sum /
    (contributing.map PortfolioData.quantityBuyOf).sum)

/-- Stated from the claim words, for comparison with the code: the current
allocation percent of an asset class as the class's market value in base
currency (the assets' `market_value_eur`) divided by total portfolio value in
base currency, times 100. -/
def claimCurrentPctEur (assets : List Asset) (assetClass : String) : ℚ :=
  ((assets.filter (fun a => GovernanceWidget.classKey a == assetClass)).map
      Asset.market_value_eur).sum /
    (assets.map Asset.market_value_eur).sum * 100

/-! ### Lemmas about the association-list dictionary operations -/

theorem recordGet_nil {α : Type} (k : String) : recordGet ([] : List (String × α)) k = none := rfl

theorem find?_map_setter {α : Type} (k : String) (v : α) (m : List (String × α)) :
    List.find? (fun p => p.1 == k) (m.map (fun p => if p.1 == k then (k, v) else p)) =
      (List.find? (fun p => p.1 == k) m).map (fun _ => (k, v)) := by
  induction m with
  | nil => simp
  | cons p m ih =>
    simp [-List.find?_map] at ih
    rw [List.map_cons, List.find?_cons, List.find?_cons]
    by_cases hp : p.1 = k
    · have hb : (p.1 == k) = true := by simpa using hp
      simp [hb, -List.find?_map]
    · have hb : (p.1 == k) = false := by simpa using hp
      simp [hb, ih, -List.find?_map]

theorem find?_map_setter_ne {α : Type} (k k' : String) (hkk : k' ≠ k) (v : α)
    (m : List (String × α)) :
    List.find? (fun p => p.1 == k') (m.map (fun p => if p.1 == k then (k, v) else p)) =
      List.find? (fun p => p.1 == k') m := by
  induction m with
  | nil => simp
  | cons p m ih =>
    simp [-List.find?_map] at ih
    rw [List.map_cons, List.find?_cons, List.find?_cons]
    by_cases hp : p.1 = k
    · have hb : (p.1 == k) = true := by simpa using hp
      have hb1 : (k == k') = false := by simpa using (Ne.symm hkk)
      have hb2 : (p.1 == k') = false := by simpa [hp] using (Ne.symm hkk)
      simp [hb, hb1, hb2, ih, -List.find?_map]
    · have hb : (p.1 == k) = false := by simpa using hp
      cases hq : (p.1 == k') with
      | true => simp [hb, hq, -List.find?_map]
      | false => simp [hb, hq, ih, -List.find?_map]

theorem recordGet_recordSet {α : Type} (m : List (String × α)) (k k' : String) (v : α) :
    recordGet (recordSet m k v) k' = if k' = k then some v else recordGet m k' := by
  unfold recordSet recordGet
  by_cases h : m.any (fun p => p.1 == k)
  · rw [if_pos h]
    by_cases hk : k' = k
    · subst hk
      rw [find?_map_setter]
      have hs : (List.find? (fun p => p.1 == k') m).isSome := by
        rw [List.find?_isSome]
        simpa [List.any_eq_true] using h
      cases hfind : List.find? (fun p => p.1 == k') m with
      | none => rw [hfind] at hs; simp at hs
      | some q => simp
    · rw [find?_map_setter_ne k k' hk]
      simp [hk]
  · rw [if_neg h]
    rw [List.find?_append]
    by_cases hk : k' = k
    · subst hk
      have hnone : List.find? (fun p => p.1 == k') m = none := by
        rw [List.find?_eq_none]
        intro x hx
        have := (List.any_eq_true (l := m) (p := fun p => p.1 == k')).not.mp
          (by simpa using h)
        push_neg at this
        simpa using this x hx
      simp [hnone]
    · have hb : (k == k') = false := by simpa using (Ne.symm hk)
      cases hfind : List.find? (fun p => p.1 == k') m with
      | none => simp [hfind, hb, hk]
      | some q => simp [hfind, hk]

theorem recordGet_recordAdd (m : List (String × ℚ)) (k k' : String) (v : ℚ) :
    recordGet (recordAdd m k v) k' =
      if k' = k then some ((recordGet m k).getD 0 + v) else recordGet m k' := by
  unfold recordAdd
  exact recordGet_recordSet m k k' _

/-- Looking a key up after folding `recordAdd` over a list: the starting value
plus the sum of the contributions keyed to it. -/
theorem recordGet_foldl_recordAdd {β : Type} (f : β → String) (g : β → ℚ) :
    ∀ (l : List β) (acc : List (String × ℚ)) (k : String),
      (recordGet (l.foldl (fun m x => recordAdd m (f x) (g x)) acc) k).getD 0 =
        (recordGet acc k).getD 0 + ((l.filter (fun x => f x == k)).map g).sum := by
  intro l
  induction l with
  | nil => intro acc k; simp
  | cons x l ih =>
    intro acc k
    rw [List.foldl_cons, ih]
    by_cases hx : f x = k
    · have hb : (f x == k) = true := by simpa using hx
      rw [recordGet_recordAdd]
      simp [hx, hb]
      ring
    · have hb : (f x == k) = false := by simpa using hx
      rw [recordGet_recordAdd]
      simp [Ne.symm hx, hb]

theorem dedupFirst_nodup (l : List String) : (dedupFirst l).Nodup := by
  suffices h : ∀ (l : List String) (acc : List String), acc.Nodup →
      (l.foldl (fun acc x => if x ∈ acc then acc else acc ++ [x]) acc).Nodup by
    exact h l [] List.nodup_nil
  intro l
  induction l with
  | nil => intro acc ha; simpa using ha
  | cons x l ih =>
    intro acc ha
    rw [List.foldl_cons]
    by_cases hx : x ∈ acc
    · simpa [hx] using ih acc ha
    · refine ih _ ?_
      simp [hx, List.nodup_append, ha]

/-! ### Lemmas about the per-ticker grouping of `aggregateByTicker` -/

namespace PortfolioData

theorem any_key_iff_mem {α : Type} (m : List (String × α)) (k : String) :
    m.any (fun g => g.1 == k) = true ↔ k ∈ m.map Prod.fst := by
  rw [List.any_eq_true]
  constructor
  · rintro ⟨x, hx, hb⟩
    exact List.mem_map.mpr ⟨x, hx, by simpa using hb⟩
  · intro hk
    rcases List.mem_map.mp hk with ⟨x, hx, he⟩
    exact ⟨x, hx, by simpa using he⟩

theorem find?_map_of_fst_eq {α : Type} (f : (String × α) → (String × α))
    (hf : ∀ x, (f x).1 = x.1) (t : String) (l : List (String × α)) :
    List.find? (fun q => q.1 == t) (l.map f) =
      (List.find? (fun q => q.1 == t) l).map f := by
  induction l with
  | nil => simp
  | cons q l ih =>
    rw [List.map_cons, List.find?_cons, List.find?_cons, hf q]
    cases hq : (q.1 == t) with
    | true => rfl
    | false => exact ih

theorem groupStep_keys (acc : List (String × List PortfolioPositionRow))
    (p : PortfolioPositionRow) :
    (groupStep acc p).map Prod.fst =
      if jsToUpper p.ticker ∈ acc.map Prod.fst then acc.map Prod.fst
      else acc.map Prod.fst ++ [jsToUpper p.ticker] := by
  unfold groupStep
  by_cases h : acc.any (fun g => g.1 == jsToUpper p.ticker) = true
  · rw [if_pos h, if_pos ((any_key_iff_mem _ _).mp h)]
    rw [List.map_map]
    refine List.map_congr_left ?_
    intro g _
    by_cases hg : g.1 = jsToUpper p.ticker
    · have hb : (g.1 == jsToUpper p.ticker) = true := by simpa using hg
      simp [hb, hg]
    · have hb : (g.1 == jsToUpper p.ticker) = false := by simpa using hg
      simp [hb, hg]
  · have h' : jsToUpper p.ticker ∉ acc.map Prod.fst := by
      intro hmem
      exact h ((any_key_iff_mem _ _).mpr hmem)
    rw [if_neg h, if_neg h']
    simp

theorem recordGet_groupStep (acc : List (String × List PortfolioPositionRow))
    (p : PortfolioPositionRow) (t : String) :
    recordGet (groupStep acc p) t =
      if t = jsToUpper p.ticker then some ((recordGet acc t).getD [] ++ [p])
      else recordGet acc t := by
  have hfst : ∀ x : String × List PortfolioPositionRow,
      ((fun g => if g.1 == jsToUpper p.ticker then (g.1, g.2 ++ [p]) else g) x).1 = x.1 := by
    intro x
    cases hx : (x.1 == jsToUpper p.ticker) <;> simp [hx]
  unfold groupStep
  by_cases h : acc.any (fun g => g.1 == jsToUpper p.ticker) = true
  · rw [if_pos h]
    unfold recordGet
    rw [find?_map_of_fst_eq _ hfst t acc]
    by_cases ht : t = jsToUpper p.ticker
    · rw [if_pos ht]
      have hs : (List.find? (fun q => q.1 == t) acc).isSome := by
        rw [List.find?_isSome]
        rw [List.any_eq_true] at h
        rcases h with ⟨x, hx, hb⟩
        exact ⟨x, hx, by rw [ht]; exact hb⟩
      cases hfind : List.find? (fun q => q.1 == t) acc with
      | none => rw [hfind] at hs; simp at hs
      | some q =>
        have hq : q.1 = t := by simpa using List.find?_some hfind
        have hb : (q.1 == jsToUpper p.ticker) = true := by
          rw [hq, ← ht]
          simp
        simp [hb, hq, ht]
    · rw [if_neg ht]
      cases hfind : List.find? (fun q => q.1 == t) acc with
      | none => simp
      | some q =>
        have hq : q.1 = t := by simpa using List.find?_some hfind
        have hb : (q.1 == jsToUpper p.ticker) = false := by
          have hne : q.1 ≠ jsToUpper p.ticker := by rw [hq]; exact ht
          simpa using hne
        simp [hb, hq, ht]
  · rw [if_neg h]
    unfold recordGet
    rw [List.find?_append]
    by_cases ht : t = jsToUpper p.ticker
    · have hnone : List.find? (fun q => q.1 == t) acc = none := by
        rw [List.find?_eq_none]
        intro x hx hb
        apply h
        rw [List.any_eq_true]
        refine ⟨x, hx, ?_⟩
        rw [← ht]
        exact hb
      have hb2 : (jsToUpper p.ticker == t) = true := by
        rw [← ht]
        simp
      rw [if_pos ht, hnone]
      simp [List.find?_cons, hb2]
    · have hb2 : (jsToUpper p.ticker == t) = false := by
        have hne : jsToUpper p.ticker ≠ t := fun he => ht he.symm
        simpa using hne
      rw [if_neg ht]
      cases hfind : List.find? (fun q => q.1 == t) acc with
      | none => simp [hfind, List.find?_cons, hb2]
      | some q => simp [hfind]

theorem keys_foldl_groupStep (l : List PortfolioPositionRow) :
    ∀ acc : List (String × List PortfolioPositionRow),
      (acc.map Prod.fst).Nodup → ((l.foldl groupStep acc).map Prod.fst).Nodup := by
  induction l with
  | nil => intro acc h; simpa using h
  | cons p l ih =>
    intro acc h
    rw [List.foldl_cons]
    refine ih _ ?_
    rw [groupStep_keys]
    by_cases hm : jsToUpper p.ticker ∈ acc.map Prod.fst
    · simpa [hm] using h
    · simp [hm, List.nodup_append, h]

theorem recordGet_foldl_groupStep_getD (l : List PortfolioPositionRow) :
    ∀ (acc : List (String × List PortfolioPositionRow)) (t : String),
      (recordGet (l.foldl groupStep acc) t).getD [] =
        (recordGet acc t).getD [] ++ l.filter (fun p => jsToUpper p.ticker == t) := by
  induction l with
  | nil => intro acc t; simp
  | cons p l ih =>
    intro acc t
    rw [List.foldl_cons, ih, recordGet_groupStep]
    by_cases ht : t = jsToUpper p.ticker
    · have hb : (jsToUpper p.ticker == t) = true := by simpa using ht.symm
      simp [ht, hb, List.filter_cons]
    · have hb : (jsToUpper p.ticker == t) = false := by
        simpa using (fun he => ht he.symm)
      simp [ht, hb, List.filter_cons]

theorem recordGet_foldl_groupStep_none (l : List PortfolioPositionRow) :
    ∀ (acc : List (String × List PortfolioPositionRow)) (t : String),
      (recordGet (l.foldl groupStep acc) t = none ↔
        (recordGet acc t = none ∧ l.filter (fun p => jsToUpper p.ticker == t) = [])) := by
  induction l with
  | nil => intro acc t; simp
  | cons p l ih =>
    intro acc t
    rw [List.foldl_cons, ih, recordGet_groupStep]
    by_cases ht : t = jsToUpper p.ticker
    · have hb : (jsToUpper p.ticker == t) = true := by simpa using ht.symm
      simp [ht, hb, List.filter_cons]
    · have hb : (jsToUpper p.ticker == t) = false := by
        simpa using (fun he => ht he.symm)
      simp [ht, hb, List.filter_cons]

theorem recordGet_of_mem {α : Type} :
    ∀ (m : List (String × α)), (m.map Prod.fst).Nodup →
      ∀ (t : String) (g : α), (t, g) ∈ m → recordGet m t = some g := by
  intro m
  induction m with
  | nil => intro _ t g hm; simp at hm
  | cons q m ih =>
    intro hnd t g hm
    have hnd' : q.1 ∉ m.map Prod.fst ∧ (m.map Prod.fst).Nodup := by
      rw [List.map_cons, List.nodup_cons] at hnd
      exact hnd
    rcases List.mem_cons.mp hm with hq | hq
    · unfold recordGet
      rw [List.find?_cons]
      have : (q.1 == t) = true := by simp [← hq]
      simp [this, ← hq]
    · have ht : t ∈ m.map Prod.fst := List.mem_map.mpr ⟨(t, g), hq, rfl⟩
      have hq1 : q.1 ≠ t := fun he => hnd'.1 (he ▸ ht)
      have hb : (q.1 == t) = false := by simpa using hq1
      unfold recordGet
      rw [List.find?_cons, hb]
      exact ih hnd'.2 t g hq

theorem mem_of_recordGet {α : Type} (m : List (String × α)) (t : String) (g : α)
    (h : recordGet m t = some g) : (t, g) ∈ m := by
  unfold recordGet at h
  cases hfind : List.find? (fun q => q.1 == t) m with
  | none => rw [hfind] at h; simp at h
  | some q =>
    rw [hfind] at h
    have hq1 : q.1 = t := by simpa using List.find?_some hfind
    have hq2 : q.2 = g := by simpa using h
    have : q ∈ m := List.mem_of_find?_eq_some hfind
    rw [show (t, g) = q from by cases q; simp_all]
    exact this

end PortfolioData

/-! ### Accounting lemmas for the per-ticker accumulator -/

namespace PortfolioData


theorem aggStep_fields (market : Option MarketWatchRow) (rates : List (String × ℚ))
    (ticker : String) (acc : AggAcc) (p : PortfolioPositionRow) :
    (aggStep market rates ticker acc p).totalQuantityCurrent
        = acc.totalQuantityCurrent + quantityCurrentOf p ∧
      (aggStep market rates ticker acc p).totalQuantityBuy
        = acc.totalQuantityBuy + quantityBuyOf p ∧
      (aggStep market rates ticker acc p).weightedPruNumerator
        = acc.weightedPruNumerator + pruContribOf p ∧
      (aggStep market rates ticker acc p).marketValueEur
        = acc.marketValueEur + positionValueEur market rates p ∧
      (aggStep market rates ticker acc p).investedValueEur
        = acc.investedValueEur + investedContribOf market rates p ∧
      (aggStep market rates ticker acc p).investedSamples
        = acc.investedSamples + investedSampleOf p := by
  cases hp : p.pru with
  | none =>
    simp [aggStep, pruContribOf, investedContribOf, investedSampleOf, hp]
  | some pru =>
    by_cases hq : 0 < quantityBuyOf p
    · simp [aggStep, pruContribOf, investedContribOf, investedSampleOf, hp, hq]
    · simp [aggStep, pruContribOf, investedContribOf, investedSampleOf, hp, hq]

theorem foldl_aggStep_fields (market : Option MarketWatchRow)
    (rates : List (String × ℚ)) (ticker : String) (l : List PortfolioPositionRow) :
    ∀ acc : AggAcc,
      (l.foldl (aggStep market rates ticker) acc).totalQuantityCurrent
          = acc.totalQuantityCurrent + (l.map quantityCurrentOf).sum ∧
        (l.foldl (aggStep market rates ticker) acc).totalQuantityBuy
          = acc.totalQuantityBuy + (l.map quantityBuyOf).sum ∧
        (l.foldl (aggStep market rates ticker) acc).weightedPruNumerator
          = acc.weightedPruNumerator + (l.map pruContribOf).sum ∧
        (l.foldl (aggStep market rates ticker) acc).marketValueEur
          = acc.marketValueEur + (l.map (positionValueEur market rates)).sum ∧
        (l.foldl (aggStep market rates ticker) acc).investedValueEur
          = acc.investedValueEur + (l.map (investedContribOf market rates)).sum ∧
        (l.foldl (aggStep market rates ticker) acc).investedSamples
          = acc.investedSamples + (l.map investedSampleOf).sum := by
  induction l with
  | nil => intro acc; simp
  | cons p l ih =>
    intro acc
    rw [List.foldl_cons]
    rcases ih (aggStep market rates ticker acc p) with ⟨h1, h2, h3, h4, h5, h6⟩
    rcases aggStep_fields market rates ticker acc p with ⟨g1, g2, g3, g4, g5, g6⟩
    refine ⟨?_, ?_, ?_, ?_, ?_, ?_⟩ <;>
      simp [h1, h2, h3, h4, h5, h6, g1, g2, g3, g4, g5, g6] <;> ring

theorem buildAsset_ticker (marketByTicker : List (String × MarketWatchRow))
    (portfolioNameById : List (String × String)) (rates : List (String × ℚ))
    (t : String) (tps : List PortfolioPositionRow) :
    (buildAsset marketByTicker portfolioNameById rates t tps).ticker = t := rfl

theorem buildAsset_price (marketByTicker : List (String × MarketWatchRow))
    (portfolioNameById : List (String × String)) (rates : List (String × ℚ))
    (t : String) (tps : List PortfolioPositionRow) :
    (buildAsset marketByTicker portfolioNameById rates t tps).price
      = ((recordGet marketByTicker t).bind MarketWatchRow.last_price).getD 0 := rfl

theorem buildAsset_portfolio_ids (marketByTicker : List (String × MarketWatchRow))
    (portfolioNameById : List (String × String)) (rates : List (String × ℚ))
    (t : String) (tps : List PortfolioPositionRow) :
    (buildAsset marketByTicker portfolioNameById rates t tps).portfolio_ids
      = dedupFirst (tps.map (·.portfolio_id)) := rfl

theorem buildAsset_pru (marketByTicker : List (String × MarketWatchRow))
    (portfolioNameById : List (String × String)) (rates : List (String × ℚ))
    (t : String) (tps : List PortfolioPositionRow) :
    (buildAsset marketByTicker portfolioNameById rates t tps).pru
      = (if 0 < (tps.map quantityBuyOf).sum then
          some ((tps.map pruContribOf).sum / (tps.map quantityBuyOf).sum)
        else none) := by
  have h := foldl_aggStep_fields (recordGet marketByTicker t) rates t tps AggAcc.init
  show (if 0 < (tps.foldl (aggStep (recordGet marketByTicker t) rates t) AggAcc.init).totalQuantityBuy
      then some ((tps.foldl (aggStep (recordGet marketByTicker t) rates t) AggAcc.init).weightedPruNumerator
        / (tps.foldl (aggStep (recordGet marketByTicker t) rates t) AggAcc.init).totalQuantityBuy)
      else none) = _
  rw [h.2.1, h.2.2.1]
  simp [AggAcc.init]

theorem buildAsset_market_value (marketByTicker : List (String × MarketWatchRow))
    (portfolioNameById : List (String × String)) (rates : List (String × ℚ))
    (t : String) (tps : List PortfolioPositionRow) :
    (buildAsset marketByTicker portfolioNameById rates t tps).market_value_eur
      = (tps.map (positionValueEur (recordGet marketByTicker t) rates)).sum := by
  have h := foldl_aggStep_fields (recordGet marketByTicker t) rates t tps AggAcc.init
  show (tps.foldl (aggStep (recordGet marketByTicker t) rates t) AggAcc.init).marketValueEur = _
  rw [h.2.2.2.1]
  simp [AggAcc.init]

end PortfolioData

/-! ### Claim C6: drift classification boundaries -/

theorem widget_driftStatus_normal_form (d b : ℚ) :
    GovernanceWidget.calculateDriftStatus d b =
      if |d| ≤ b / 2 then DriftStatus.OK
      else if |d| ≤ b then DriftStatus.WARNING
      else DriftStatus.BREACH := by
  unfold GovernanceWidget.calculateDriftStatus
  by_cases h1 : |d| ≤ b / 2
  · have h0 : (0 : ℚ) ≤ |d| := abs_nonneg d
    have h2 : |d| ≤ b := by linarith
    simp [h1, h2]
  · by_cases h2 : |d| ≤ b
    · simp [h1, h2]
    · simp [h1, h2]

/-- C6 — confirmed: for every drift and tolerance band, both
`calculateDriftStatus` implementations agree and classify `OK` iff
`|drift| ≤ band/2`, `WARNING` iff `band/2 < |drift| ≤ band`, and `BREACH`
otherwise (iff `band < |drift|`); in particular for band 4, drift 1.9 is OK,
drift 2.1 is WARNING and drift 4.1 is BREACH. -/
theorem c6_drift_classification_boundaries :
    (∀ d b : ℚ,
      GovernanceWidget.calculateDriftStatus d b = GovernanceWidgetV1.calculateDriftStatus d b
      ∧ (GovernanceWidget.calculateDriftStatus d b = DriftStatus.OK ↔ |d| ≤ b / 2)
      ∧ (GovernanceWidget.calculateDriftStatus d b = DriftStatus.WARNING ↔
          b / 2 < |d| ∧ |d| ≤ b)
      ∧ (GovernanceWidget.calculateDriftStatus d b = DriftStatus.BREACH ↔ b < |d|))
    ∧ GovernanceWidget.calculateDriftStatus (19/10) 4 = DriftStatus.OK
    ∧ GovernanceWidget.calculateDriftStatus (21/10) 4 = DriftStatus.WARNING
    ∧ GovernanceWidget.calculateDriftStatus (41/10) 4 = DriftStatus.BREACH := by
  have habs1 : |(19/10 : ℚ)| = 19/10 := abs_of_pos (by norm_num)
  have habs2 : |(21/10 : ℚ)| = 21/10 := abs_of_pos (by norm_num)
  have habs3 : |(41/10 : ℚ)| = 41/10 := abs_of_pos (by norm_num)
  refine ⟨?_, ?_, ?_, ?_⟩
  · intro d b
    rw [widget_driftStatus_normal_form]
    refine ⟨?_, ?_, ?_, ?_⟩
    · unfold GovernanceWidgetV1.calculateDriftStatus
      rfl
    · by_cases h1 : |d| ≤ b / 2
      · simp [h1]
      · by_cases h2 : |d| ≤ b <;> simp [h1, h2]
    · by_cases h1 : |d| ≤ b / 2
      · simp [h1]
      · by_cases h2 : |d| ≤ b <;> simp [h1, h2, not_le.mp h1]
    · by_cases h1 : |d| ≤ b / 2
      · have h0 : (0 : ℚ) ≤ |d| := abs_nonneg d
        have h2 : |d| ≤ b := by linarith
        simp [h1, h2, not_lt.mpr h2]
      · by_cases h2 : |d| ≤ b
        · simp [h1, h2, not_lt.mpr h2]
        · simp [h1, h2, not_le.mp h2]
  · rw [widget_driftStatus_normal_form, habs1, if_pos (by norm_num)]
  · rw [widget_driftStatus_normal_form, habs2, if_neg (by norm_num), if_pos (by norm_num)]
  · rw [widget_driftStatus_normal_form, habs3, if_neg (by norm_num), if_neg (by norm_num)]

/-! ### Claim C3: trend-state resolution and the UNKNOWN state -/

/-- C3 — counterexample: the series-based `resolveTrendState` of
`technicalIndicators.ts`, given an undefined MACD line (with the other three
inputs defined), returns `NEUTRAL`, not `UNKNOWN` — its three-state result
type cannot even express `UNKNOWN`. -/
theorem c3_trend_state_counterexample :
    trend3ToTrendState
        (TechnicalIndicators.resolveTrendState none (some 0) (some 50) (some 1) 60)
      = TrendState.NEUTRAL
    ∧ TrendState.NEUTRAL ≠ TrendState.UNKNOWN := by
  exact ⟨rfl, by simp⟩

/-- C3 — amended: the row-based `resolveTrendState` of the aggregation module
returns `UNKNOWN` exactly when one of the four indicator inputs is null, and
`NEUTRAL` when all four are defined but the stored state is neither bullish
nor bearish; the series-based `resolveTrendState` of `technicalIndicators.ts`
has no `UNKNOWN` state at all and returns `NEUTRAL` both when an input is
undefined and when all inputs are defined but neither the bullish nor the
bearish condition holds. -/
theorem c3_trend_state_amended :
    (∀ row : PortfolioData.MarketWatchRow,
      (PortfolioData.resolveTrendState row = TrendState.UNKNOWN ↔
        (row.macd_line = none ∨ row.macd_signal = none ∨ row.rsi_14 = none ∨
          row.momentum_20 = none))
      ∧ (row.macd_line ≠ none → row.macd_signal ≠ none → row.rsi_14 ≠ none →
          row.momentum_20 ≠ none → row.trend_state ≠ some TrendState.BULLISH →
          row.trend_state ≠ some TrendState.BEARISH →
          PortfolioData.resolveTrendState row = TrendState.NEUTRAL))
    ∧ (∀ (m s r mo : Option ℚ) (th : ℚ), (m = none ∨ s = none ∨ r = none ∨ mo = none) →
        TechnicalIndicators.resolveTrendState m s r mo th
          = TechnicalIndicators.TrendState.NEUTRAL)
    ∧ (∀ m s r mo th : ℚ, ¬(m > s ∧ r ≥ th ∧ mo > 0) → ¬(m < s ∧ r < 40 ∧ mo < 0) →
        TechnicalIndicators.resolveTrendState (some m) (some s) (some r) (some mo) th
          = TechnicalIndicators.TrendState.NEUTRAL) := by
  refine ⟨?_, ?_, ?_⟩
  · intro row
    constructor
    · unfold PortfolioData.resolveTrendState
      by_cases h : (row.macd_line ≠ none ∧ row.macd_signal ≠ none ∧
          row.rsi_14 ≠ none ∧ row.momentum_20 ≠ none)
      · rw [if_pos h]
        constructor
        · intro hres
          split_ifs at hres <;> simp at hres
        · intro hnull
          exfalso
          rcases h with ⟨h1, h2, h3, h4⟩
          rcases hnull with h' | h' | h' | h' <;> contradiction
      · rw [if_neg h]
        simp only [true_iff]
        by_cases h1 : row.macd_line = none
        · exact Or.inl h1
        · by_cases h2 : row.macd_signal = none
          · exact Or.inr (Or.inl h2)
          · by_cases h3 : row.rsi_14 = none
            · exact Or.inr (Or.inr (Or.inl h3))
            · by_cases h4 : row.momentum_20 = none
              · exact Or.inr (Or.inr (Or.inr h4))
              · exact absurd ⟨h1, h2, h3, h4⟩ h
    · intro h1 h2 h3 h4 h5 h6
      unfold PortfolioData.resolveTrendState
      rw [if_pos ⟨h1, h2, h3, h4⟩, if_neg h5, if_neg h6]
  · intro m s r mo th h
    cases m <;> cases s <;> cases r <;> cases mo <;>
      simp [TechnicalIndicators.resolveTrendState] <;> simp_all
  · intro m s r mo th hbull hbear
    simp [TechnicalIndicators.resolveTrendState, hbull, hbear]

/-! ### Claim C7: currency rate table and fail-open lookup -/

namespace PortfolioData

theorem recordGet_toCurrencyRateMap_untouched :
    ∀ (currencies : List CurrencyPair) (acc : List (String × ℚ)) (k : String),
      (∀ p ∈ currencies, p.rate_to_eur = none ∨ jsToUpper p.id ≠ k) →
      recordGet (currencies.foldl (fun map currency =>
        match currency.rate_to_eur with
        | some rate => recordSet map (jsToUpper currency.id) rate
        | none => map) acc) k = recordGet acc k := by
  intro currencies
  induction currencies with
  | nil => intro acc k _; simp
  | cons c l ih =>
    intro acc k h
    rw [List.foldl_cons]
    rcases h c (List.mem_cons_self c l) with hc | hc
    · rw [hc]
      exact ih acc k (fun p hp => h p (List.mem_cons_of_mem c hp))
    · cases hr : c.rate_to_eur with
      | none => exact ih acc k (fun p hp => h p (List.mem_cons_of_mem c hp))
      | some rate =>
        rw [ih (recordSet acc (jsToUpper c.id) rate) k
          (fun p hp => h p (List.mem_cons_of_mem c hp))]
        rw [recordGet_recordSet]
        rw [if_neg (fun he => hc he.symm)]

end PortfolioData

/-- C7 — counterexample: a snapshot row for the base currency itself
(`EUR` at rate 2) overrides the seeded `EUR ↦ 1` entry, so the table does not
map the base currency to rate 1 unconditionally. -/
theorem c7_rate_lookup_counterexample :
    PortfolioData.getRateToEur (some "EUR")
        (PortfolioData.toCurrencyRateMap [⟨"EUR", "EUR", some 2⟩]) = 2
      ∧ (2 : ℚ) ≠ 1 := by
  constructor
  · rfl
  · norm_num

/-- C7 — amended: the rate table is seeded with base currency `EUR ↦ 1`; a
null (or empty) currency defaults to 1, lookup of `EUR` returns 1 whenever the
snapshot supplies no `EUR` rate of its own (an explicit `EUR` row overrides the
seed), and lookup of any currency absent from the snapshot returns 1 instead of
failing. -/
theorem c7_rate_lookup_amended (currencies : List CurrencyPair) (c : String) :
    PortfolioData.getRateToEur none (PortfolioData.toCurrencyRateMap currencies) = 1
    ∧ ((∀ p ∈ currencies, p.rate_to_eur = none ∨ jsToUpper p.id ≠ "EUR") →
        PortfolioData.getRateToEur (some "EUR")
          (PortfolioData.toCurrencyRateMap currencies) = 1)
    ∧ ((∀ p ∈ currencies, p.rate_to_eur = none ∨ jsToUpper p.id ≠ jsToUpper c) →
        PortfolioData.getRateToEur (some c)
          (PortfolioData.toCurrencyRateMap currencies) = 1) := by
  refine ⟨rfl, ?_, ?_⟩
  · intro h
    have hu : jsToUpper "EUR" = "EUR" := rfl
    show (if ("EUR" : String) = "" then 1
      else (recordGet (PortfolioData.toCurrencyRateMap currencies) (jsToUpper "EUR")).getD 1) = 1
    rw [if_neg (by decide : ¬ ("EUR" : String) = "")]
    rw [hu]
    unfold PortfolioData.toCurrencyRateMap
    rw [PortfolioData.recordGet_toCurrencyRateMap_untouched currencies [("EUR", 1)] "EUR" h]
    rfl
  · intro h
    show (if c = "" then 1
      else (recordGet (PortfolioData.toCurrencyRateMap currencies) (jsToUpper c)).getD 1) = 1
    by_cases hc : c = ""
    · rw [if_pos hc]
    · rw [if_neg hc]
      unfold PortfolioData.toCurrencyRateMap
      rw [PortfolioData.recordGet_toCurrencyRateMap_untouched currencies [("EUR", 1)]
        (jsToUpper c) h]
      by_cases he : jsToUpper c = "EUR"
      · rw [he]
        rfl
      · unfold recordGet
        rw [List.find?_cons]
        have hb : (("EUR" : String) == jsToUpper c) = false := by
          simpa using (fun hx => he hx.symm)
        rw [hb]
        rfl

/-! ### Claim C2: coverage normalization -/

theorem recordSet_append_of_fresh {α : Type} (m : List (String × α)) (k : String)
    (v : α) (h : ∀ q ∈ m, q.1 ≠ k) : recordSet m k v = m ++ [(k, v)] := by
  unfold recordSet
  rw [if_neg]
  intro hany
  rw [List.any_eq_true] at hany
  rcases hany with ⟨q, hq, hb⟩
  exact h q hq (by simpa using hb)

theorem foldl_recordSet_of_nodup {α β : Type} (g : β → String) (f : β → α) :
    ∀ (l : List β) (acc : List (String × α)),
      (∀ x ∈ l, ∀ q ∈ acc, q.1 ≠ g x) → (l.map g).Nodup →
      l.foldl (fun m x => recordSet m (g x) (f x)) acc
        = acc ++ l.map (fun x => (g x, f x)) := by
  intro l
  induction l with
  | nil => intro acc _ _; simp
  | cons x l ih =>
    intro acc hfresh hnd
    rw [List.foldl_cons]
    rw [recordSet_append_of_fresh acc (g x) (f x)
      (fun q hq => hfresh x (List.mem_cons_self x l) q hq)]
    rw [ih (acc ++ [(g x, f x)]) ?_ ?_]
    · simp
    · intro y hy q hq
      rcases List.mem_append.mp hq with hq | hq
      · exact hfresh y (List.mem_cons_of_mem x hy) q hq
      · have hqe : q = (g x, f x) := by simpa using hq
        rw [hqe]
        have hx : g x ∉ l.map g := by
          rw [List.map_cons, List.nodup_cons] at hnd
          exact hnd.1
        intro he
        have he' : g x = g y := he
        rw [he'] at hx
        exact hx (List.mem_map_of_mem g hy)
    · rw [List.map_cons, List.nodup_cons] at hnd
      exact hnd.2

theorem list_sum_pos_of_pos (l : List ℚ) (hl : l ≠ []) (h : ∀ x ∈ l, 0 < x) :
    0 < l.sum := by
  cases l with
  | nil => exact absurd rfl hl
  | cons x l =>
    rw [List.sum_cons]
    have hx := h x (List.mem_cons_self x l)
    have hs : 0 ≤ l.sum := by
      apply List.sum_nonneg
      intro y hy
      exact le_of_lt (h y (List.mem_cons_of_mem x hy))
    linarith

theorem list_sum_map_snd_mul (l : List (String × ℚ)) (r : ℚ) :
    (l.map (fun p => p.2 * r)).sum = (l.map Prod.snd).sum * r := by
  induction l with
  | nil => simp
  | cons p l ih =>
    rw [List.map_cons, List.map_cons, List.sum_cons, List.sum_cons, ih]
    ring

/-- C2 — amended: over a supplied raw coverage map with a non-empty set of
positive entries (whose upper-cased keys do not collide), normalization keeps
exactly the positive entries; in the percentage branch (positive weights
summing above 1.5) the result sums to exactly 100, but in the fraction branch
(sum ≤ 1.5) each weight is only multiplied by 100, so the result sums to
100 × (sum of the positive weights), which equals 100 only when those weights
sum to 1. -/
theorem c2_coverage_normalization_amended
    (rawMap : List (String × ℚ)) (ticker : String)
    (pos : List (String × ℚ)) (total : ℚ)
    (hpos : pos = rawMap.filter (fun p => decide (0 < p.2)))
    (htot : total = (pos.map Prod.snd).sum)
    (hne : pos ≠ [])
    (hnd : (pos.map (fun p => jsToUpper p.1)).Nodup) :
    PortfolioData.normalizeCoveragePercentages (some rawMap) ticker
      = pos.map (fun p =>
          (jsToUpper p.1, if total ≤ 3/2 then p.2 * 100 else p.2 / total * 100))
    ∧ ((PortfolioData.normalizeCoveragePercentages (some rawMap) ticker).map
          Prod.snd).sum
      = (if total ≤ 3/2 then total * 100 else 100) := by
  have htotpos : 0 < total := by
    rw [htot]
    apply list_sum_pos_of_pos
    · intro he
      exact hne (List.map_eq_nil.mp he)
    · intro x hx
      rcases List.mem_map.mp hx with ⟨p, hp, hpx⟩
      rw [hpos] at hp
      have := List.of_mem_filter hp
      rw [← hpx]
      simpa using this
  have hmain : PortfolioData.normalizeCoveragePercentages (some rawMap) ticker
      = pos.map (fun p =>
          (jsToUpper p.1, if total ≤ 3/2 then p.2 * 100 else p.2 / total * 100)) := by
    show (let positiveEntries := rawMap.filter (fun p => decide (0 < p.2))
      if positiveEntries = [] then ([] : List (String × ℚ))
      else
        let t := (positiveEntries.map Prod.snd).sum
        positiveEntries.foldl (fun normalized p =>
          recordSet normalized (jsToUpper p.1)
            (if t ≤ 3/2 then p.2 * 100 else p.2 / t * 100)) []) = _
    rw [← hpos]
    show (if pos = [] then ([] : List (String × ℚ))
      else pos.foldl (fun normalized p =>
        recordSet normalized (jsToUpper p.1)
          (if (pos.map Prod.snd).sum ≤ 3/2 then p.2 * 100
           else p.2 / (pos.map Prod.snd).sum * 100)) []) = _
    rw [← htot]
    rw [if_neg hne]
    rw [foldl_recordSet_of_nodup (fun p => jsToUpper p.1)
      (fun p => if total ≤ 3/2 then p.2 * 100 else p.2 / total * 100) pos []
      (by intro x _ q hq; simp at hq) hnd]
    simp
  refine ⟨hmain, ?_⟩
  rw [hmain, List.map_map]
  by_cases hb : total ≤ 3/2
  · rw [if_pos hb]
    have he : (pos.map ((fun q : String × ℚ => q.2) ∘ (fun p =>
        (jsToUpper p.1, if total ≤ 3/2 then p.2 * 100 else p.2 / total * 100))))
        = pos.map (fun p => p.2 * 100) := by
      apply List.map_congr_left
      intro p _
      simp [hb]
    rw [show (Prod.snd ∘ (fun p : String × ℚ =>
        (jsToUpper p.1, if total ≤ 3/2 then p.2 * 100 else p.2 / total * 100)))
        = ((fun q : String × ℚ => q.2) ∘ (fun p =>
        (jsToUpper p.1, if total ≤ 3/2 then p.2 * 100 else p.2 / total * 100))) from rfl]
    rw [he, list_sum_map_snd_mul, ← htot]
  · rw [if_neg hb]
    have he : (pos.map (Prod.snd ∘ (fun p : String × ℚ =>
        (jsToUpper p.1, if total ≤ 3/2 then p.2 * 100 else p.2 / total * 100))))
        = pos.map (fun p => p.2 * (100 / total)) := by
      apply List.map_congr_left
      intro p _
      simp [hb]
      ring
    rw [he, list_sum_map_snd_mul, ← htot]
    field_simp

/-- C2 — counterexample: the coverage map `{US: 0.5}` has a non-empty positive
entry set, falls in the fraction branch (sum `0.5 ≤ 1.5`), and normalizes to
`{US: 50}`, whose values sum to 50 — not within `1e-6` of 100. -/
theorem c2_coverage_normalization_counterexample :
    PortfolioData.normalizeCoveragePercentages (some [("US", 1/2)]) "AAPL"
        = [("US", 50)]
      ∧ ¬ (|((PortfolioData.normalizeCoveragePercentages (some [("US", 1/2)]) "AAPL").map
            Prod.snd).sum - 100| ≤ 1/1000000) := by
  have hus : jsToUpper "US" = "US" := rfl
  have hfil : List.filter (fun p : String × ℚ => decide (0 < p.2)) [("US", 1/2)]
      = [("US", 1/2)] := by
    rw [List.filter_cons]
    norm_num
  have h : PortfolioData.normalizeCoveragePercentages (some [("US", 1/2)]) "AAPL"
      = [("US", 50)] := by
    show (let positiveEntries :=
        List.filter (fun p : String × ℚ => decide (0 < p.2)) [("US", 1/2)]
      if positiveEntries = [] then ([] : List (String × ℚ))
      else
        let t := (positiveEntries.map Prod.snd).sum
        positiveEntries.foldl (fun normalized p =>
          recordSet normalized (jsToUpper p.1)
            (if t ≤ 3/2 then p.2 * 100 else p.2 / t * 100)) []) = _
    rw [hfil]
    show (if ([("US", (1:ℚ)/2)] : List (String × ℚ)) = [] then ([] : List (String × ℚ))
      else [("US", (1:ℚ)/2)].foldl (fun normalized p =>
        recordSet normalized (jsToUpper p.1)
          (if (([("US", (1:ℚ)/2)].map Prod.snd).sum) ≤ 3/2 then p.2 * 100
           else p.2 / (([("US", (1:ℚ)/2)].map Prod.snd).sum) * 100)) []) = _
    rw [if_neg (by simp)]
    rw [List.foldl_cons, List.foldl_nil]
    rw [show recordSet ([] : List (String × ℚ)) (jsToUpper "US")
        (if (([("US", (1:ℚ)/2)].map Prod.snd).sum) ≤ 3/2 then (1:ℚ)/2 * 100
         else (1:ℚ)/2 / (([("US", (1:ℚ)/2)].map Prod.snd).sum) * 100)
      = [(jsToUpper "US",
          if (([("US", (1:ℚ)/2)].map Prod.snd).sum) ≤ 3/2 then (1:ℚ)/2 * 100
          else (1:ℚ)/2 / (([("US", (1:ℚ)/2)].map Prod.snd).sum) * 100)] from by
        simp [recordSet]]
    rw [hus]
    norm_num
  refine ⟨h, ?_⟩
  rw [h]
  have habs : |((([("US", (50:ℚ))]).map Prod.snd).sum - 100)| = 50 := by
    rw [show ((([("US", (50:ℚ))]).map Prod.snd).sum - 100) = -50 from by norm_num]
    rw [abs_neg, abs_of_pos] <;> norm_num
  rw [habs]
  norm_num

/-- C2 — witness for the amended theorem: the map `{US: 0.7, JP: 0.3}`
normalizes to `{US: 70, JP: 30}` and sums to 100. -/
theorem c2_coverage_normalization_witness :
    PortfolioData.normalizeCoveragePercentages (some [("US", 7/10), ("JP", 3/10)]) "AAPL"
        = [("US", 70), ("JP", 30)]
      ∧ ((PortfolioData.normalizeCoveragePercentages
            (some [("US", 7/10), ("JP", 3/10)]) "AAPL").map Prod.snd).sum = 100 := by
  have hus : jsToUpper "US" = "US" := rfl
  have hjp : jsToUpper "JP" = "JP" := rfl
  have h := c2_coverage_normalization_amended [("US", 7/10), ("JP", 3/10)] "AAPL"
    [("US", 7/10), ("JP", 3/10)] 1
    (by rw [List.filter_cons, List.filter_cons]; norm_num)
    (by norm_num)
    (by simp)
    (by decide)
  constructor
  · rw [h.1, List.map_cons, List.map_cons, List.map_nil, hus, hjp]
    norm_num
  · rw [h.2]
    norm_num

/-! ### Claims C1, C8, C10: the per-ticker aggregation -/

namespace PortfolioData

theorem sum_pruContrib_eq_filtered (l : List PortfolioPositionRow) :
    (l.map pruContribOf).sum
      = ((l.filter (fun p => p.pru.isSome && decide (0 < quantityBuyOf p))).map
          (fun p => p.pru.getD 0 * quantityBuyOf p)).sum := by
  induction l with
  | nil => simp
  | cons p l ih =>
    rw [List.map_cons, List.sum_cons, List.filter_cons]
    cases hp : p.pru with
    | none => simp [pruContribOf, hp, ih]
    | some pru =>
      by_cases hq : 0 < quantityBuyOf p
      · simp [pruContribOf, hp, hq, ih]
      · simp [pruContribOf, hp, hq, ih]

theorem positionValueEur_none (rates : List (String × ℚ)) (p : PortfolioPositionRow) :
    positionValueEur none rates p = 0 := by
  simp [positionValueEur]

theorem mem_groupByTicker_key (positions : List PortfolioPositionRow)
    (p : PortfolioPositionRow) (hp : p ∈ positions) :
    ∃ tps, (jsToUpper p.ticker, tps) ∈ groupByTicker positions := by
  have hfil : positions.filter (fun q => jsToUpper q.ticker == jsToUpper p.ticker) ≠ [] := by
    have hmem : p ∈ positions.filter (fun q => jsToUpper q.ticker == jsToUpper p.ticker) := by
      apply List.mem_filter.mpr
      exact ⟨hp, by simp⟩
    exact List.ne_nil_of_mem hmem
  cases hrec : recordGet (groupByTicker positions) (jsToUpper p.ticker) with
  | none =>
    exfalso
    have := (recordGet_foldl_groupStep_none positions [] (jsToUpper p.ticker)).mp hrec
    exact hfil this.2
  | some tps =>
    exact ⟨tps, mem_of_recordGet _ _ _ hrec⟩

theorem group_eq_filter (positions : List PortfolioPositionRow) (t : String)
    (tps : List PortfolioPositionRow) (hg : (t, tps) ∈ groupByTicker positions) :
    tps = positions.filter (fun p => jsToUpper p.ticker == t) := by
  have hnd : ((groupByTicker positions).map Prod.fst).Nodup :=
    keys_foldl_groupStep positions [] (by simp)
  have hrec : recordGet (groupByTicker positions) t = some tps :=
    recordGet_of_mem _ hnd t tps hg
  have h2 : (recordGet (groupByTicker positions) t).getD []
      = (recordGet ([] : List (String × List PortfolioPositionRow)) t).getD []
        ++ positions.filter (fun p => jsToUpper p.ticker == t) :=
    recordGet_foldl_groupStep_getD positions [] t
  rw [hrec] at h2
  simpa using h2

end PortfolioData

/-- C1 — counterexample: two same-ticker positions, one with PRU 100 over 10
acquired units and one with no PRU over 10 acquired units.  The code's
consolidated average cost is `(100×10)/20 = 50`, while the claim's formula
(both sums over the positions with a known PRU and positive quantity) gives
`(100×10)/10 = 100`; and for a single position with no PRU the code yields an
average cost of 0 where the claim requires null. -/
theorem c1_weighted_avg_cost_counterexample :
    ((PortfolioData.aggregateByTicker
        [⟨"a", "AAPL", none, none, none, some 10, some 10, some 100, none, none⟩,
         ⟨"b", "AAPL", none, none, none, some 10, some 10, none, none, none⟩]
        [] [] []).map Asset.pru = [some 50])
    ∧ claimAvgCost
        [⟨"a", "AAPL", none, none, none, some 10, some 10, some 100, none, none⟩,
         ⟨"b", "AAPL", none, none, none, some 10, some 10, none, none, none⟩]
        = some 100
    ∧ (50 : ℚ) ≠ 100
    ∧ ((PortfolioData.aggregateByTicker
        [⟨"b", "AAPL", none, none, none, some 10, some 10, none, none, none⟩]
        [] [] []).map Asset.pru = [some 0])
    ∧ claimAvgCost
        [⟨"b", "AAPL", none, none, none, some 10, some 10, none, none, none⟩] = none := by
  have hk : jsToUpper "AAPL" = "AAPL" := rfl
  have hgroup2 : PortfolioData.groupByTicker
      [⟨"a", "AAPL", none, none, none, some 10, some 10, some 100, none, none⟩,
       ⟨"b", "AAPL", none, none, none, some 10, some 10, none, none, none⟩]
      = [("AAPL",
          [⟨"a", "AAPL", none, none, none, some 10, some 10, some 100, none, none⟩,
           ⟨"b", "AAPL", none, none, none, some 10, some 10, none, none, none⟩])] := by
    unfold PortfolioData.groupByTicker
    rw [List.foldl_cons, List.foldl_cons, List.foldl_nil]
    simp [PortfolioData.groupStep, hk]
  have hgroup1 : PortfolioData.groupByTicker
      [⟨"b", "AAPL", none, none, none, some 10, some 10, none, none, none⟩]
      = [("AAPL", [⟨"b", "AAPL", none, none, none, some 10, some 10, none, none, none⟩])] := by
    unfold PortfolioData.groupByTicker
    rw [List.foldl_cons, List.foldl_nil]
    simp [PortfolioData.groupStep, hk]
  refine ⟨?_, ?_, by norm_num, ?_, ?_⟩
  · unfold PortfolioData.aggregateByTicker
    rw [hgroup2, List.map_cons, List.map_nil, List.map_cons, List.map_nil]
    rw [PortfolioData.buildAsset_pru]
    rw [show ([⟨"a", "AAPL", none, none, none, some 10, some 10, some 100, none, none⟩,
        ⟨"b", "AAPL", none, none, none, some 10, some 10, none, none, none⟩].map
          PortfolioData.quantityBuyOf) = [10, 10] from by
      simp [PortfolioData.quantityBuyOf, Option.orElse]]
    rw [show ([⟨"a", "AAPL", none, none, none, some 10, some 10, some 100, none, none⟩,
        ⟨"b", "AAPL", none, none, none, some 10, some 10, none, none, none⟩].map
          PortfolioData.pruContribOf) = [1000, 0] from by
      simp [PortfolioData.pruContribOf, PortfolioData.quantityBuyOf, Option.orElse]
      try norm_num]
    norm_num
  · unfold claimAvgCost
    rw [List.filter_cons, List.filter_cons]
    simp [PortfolioData.quantityBuyOf, Option.orElse]
    try norm_num
  · unfold PortfolioData.aggregateByTicker
    rw [hgroup1, List.map_cons, List.map_nil, List.map_cons, List.map_nil]
    rw [PortfolioData.buildAsset_pru]
    rw [show ([⟨"b", "AAPL", none, none, none, some 10, some 10, none, none, none⟩].map
          PortfolioData.quantityBuyOf) = [10] from by
      simp [PortfolioData.quantityBuyOf, Option.orElse]]
    rw [show ([⟨"b", "AAPL", none, none, none, some 10, some 10, none, none, none⟩].map
          PortfolioData.pruContribOf) = [0] from by
      simp [PortfolioData.pruContribOf, PortfolioData.quantityBuyOf, Option.orElse]]
    norm_num
  · unfold claimAvgCost
    rw [List.filter_cons]
    simp

/-- C1 — amended: for every ticker group, the consolidated weighted average
cost has numerator `Σ(pru_i × quantityBuy_i)` over exactly the positions with
a known PRU and positive acquired quantity, but its denominator is the total
acquired quantity over ALL of the ticker's positions, and it is null exactly
when that total acquired quantity is not positive (when no position supplies a
cost but quantity was acquired, the average cost is 0, not null). -/
theorem c1_weighted_avg_cost_amended
    (positions : List PortfolioData.PortfolioPositionRow)
    (marketByTicker : List (String × PortfolioData.MarketWatchRow))
    (portfolioNameById : List (String × String)) (rates : List (String × ℚ))
    (t : String) (tps : List PortfolioData.PortfolioPositionRow)
    (hg : (t, tps) ∈ PortfolioData.groupByTicker positions) :
    ∃ a ∈ PortfolioData.aggregateByTicker positions marketByTicker portfolioNameById rates,
      a.ticker = t ∧
      a.pru = (if 0 < (tps.map PortfolioData.quantityBuyOf).sum then
          some (((tps.filter (fun p => p.pru.isSome && decide (0 < PortfolioData.quantityBuyOf p))).map
              (fun p => p.pru.getD 0 * PortfolioData.quantityBuyOf p)).sum /
            (tps.map PortfolioData.quantityBuyOf).sum)
        else none) := by
  refine ⟨PortfolioData.buildAsset marketByTicker portfolioNameById rates t tps, ?_, ?_, ?_⟩
  · unfold PortfolioData.aggregateByTicker
    exact List.mem_map.mpr ⟨(t, tps), hg, rfl⟩
  · exact PortfolioData.buildAsset_ticker marketByTicker portfolioNameById rates t tps
  · rw [PortfolioData.buildAsset_pru, PortfolioData.sum_pruContrib_eq_filtered]

/-- C1 — witness: for the two-position AAPL group (PRU 100 × 10 units and no
PRU × 10 units) the amended formula gives `(100×10)/(10+10) = 50`. -/
theorem c1_weighted_avg_cost_witness :
    ∃ a ∈ PortfolioData.aggregateByTicker
        [⟨"a", "AAPL", none, none, none, some 10, some 10, some 100, none, none⟩,
         ⟨"b", "AAPL", none, none, none, some 10, some 10, none, none, none⟩]
        [] [] [],
      a.ticker = "AAPL" ∧ a.pru = some 50 := by
  have hk : jsToUpper "AAPL" = "AAPL" := rfl
  have hg : ("AAPL",
      [⟨"a", "AAPL", none, none, none, some 10, some 10, some 100, none, none⟩,
       ⟨"b", "AAPL", none, none, none, some 10, some 10, none, none, none⟩]) ∈
      PortfolioData.groupByTicker
        [⟨"a", "AAPL", none, none, none, some 10, some 10, some 100, none, none⟩,
         ⟨"b", "AAPL", none, none, none, some 10, some 10, none, none, none⟩] := by
    unfold PortfolioData.groupByTicker
    rw [List.foldl_cons, List.foldl_cons, List.foldl_nil]
    simp [PortfolioData.groupStep, hk]
  obtain ⟨a, ha,ht, hpru⟩ := c1_weighted_avg_cost_amended
    [⟨"a", "AAPL", none, none, none, some 10, some 10, some 100, none, none⟩,
     ⟨"b", "AAPL", none, none, none, some 10, some 10, none, none, none⟩]
    [] [] [] "AAPL"
    [⟨"a", "AAPL", none, none, none, some 10, some 10, some 100, none, none⟩,
     ⟨"b", "AAPL", none, none, none, some 10, some 10, none, none, none⟩] hg
  refine ⟨a, ha, ht, ?_⟩
  rw [hpru]
  rw [show ([⟨"a", "AAPL", none, none, none, some 10, some 10, some 100, none, none⟩,
      (⟨"b", "AAPL", none, none, none, some 10, some 10, none, none, none⟩ :
        PortfolioData.PortfolioPositionRow)].map PortfolioData.quantityBuyOf)
      = [10, 10] from by simp [PortfolioData.quantityBuyOf, Option.orElse]]
  rw [List.filter_cons, List.filter_cons]
  simp [PortfolioData.quantityBuyOf, Option.orElse]
  norm_num

/-- C8 — confirmed: a ticker that has a position row but no market record
still produces a holding: the output contains an asset for that (upper-cased)
ticker with price 0 and market value 0 in base currency. -/
theorem c8_unpriced_holding_kept
    (positions : List PortfolioData.PortfolioPositionRow)
    (marketByTicker : List (String × PortfolioData.MarketWatchRow))
    (portfolioNameById : List (String × String)) (rates : List (String × ℚ))
    (p : PortfolioData.PortfolioPositionRow) (hp : p ∈ positions)
    (hm : recordGet marketByTicker (jsToUpper p.ticker) = none) :
    ∃ a ∈ PortfolioData.aggregateByTicker positions marketByTicker portfolioNameById rates,
      a.ticker = jsToUpper p.ticker ∧ a.price = 0 ∧ a.market_value_eur = 0 := by
  obtain ⟨tps, hg⟩ := PortfolioData.mem_groupByTicker_key positions p hp
  refine ⟨PortfolioData.buildAsset marketByTicker portfolioNameById rates
    (jsToUpper p.ticker) tps, ?_, ?_, ?_, ?_⟩
  · unfold PortfolioData.aggregateByTicker
    exact List.mem_map.mpr ⟨(jsToUpper p.ticker, tps), hg, rfl⟩
  · exact PortfolioData.buildAsset_ticker _ _ _ _ _
  · rw [PortfolioData.buildAsset_price, hm]
    rfl
  · rw [PortfolioData.buildAsset_market_value, hm]
    apply List.sum_eq_zero
    intro x hx
    rcases List.mem_map.mp hx with ⟨q, _, hq⟩
    rw [← hq]
    exact PortfolioData.positionValueEur_none rates q

/-- C8 — witness: a single NVDA position with no matching market row yields
exactly one holding, unpriced but present. -/
theorem c8_unpriced_holding_witness :
    ∃ a ∈ PortfolioData.aggregateByTicker
        [⟨"a", "NVDA", none, none, none, some 1, some 1, none, none, none⟩] [] [] [],
      a.ticker = jsToUpper "NVDA" ∧ a.price = 0 ∧ a.market_value_eur = 0 := by
  exact c8_unpriced_holding_kept
    [⟨"a", "NVDA", none, none, none, some 1, some 1, none, none, none⟩] [] [] []
    ⟨"a", "NVDA", none, none, none, some 1, some 1, none, none, none⟩
    (List.mem_cons_self _ _) rfl

/-- C10 — confirmed: aggregation consolidates case-insensitively by ticker:
the output holds at most one asset per upper-cased ticker (the ticker list is
duplicate-free), each ticker group collects exactly the positions whose
upper-cased ticker matches (so two positions differing only in case land in
the same single holding), every position's ticker is represented, and each
holding's portfolio-identifier list is duplicate-free. -/
theorem c10_case_insensitive_consolidation
    (positions : List PortfolioData.PortfolioPositionRow)
    (marketByTicker : List (String × PortfolioData.MarketWatchRow))
    (portfolioNameById : List (String × String)) (rates : List (String × ℚ)) :
    ((PortfolioData.aggregateByTicker positions marketByTicker portfolioNameById
        rates).map Asset.ticker).Nodup
    ∧ (∀ t tps, (t, tps) ∈ PortfolioData.groupByTicker positions →
        tps = positions.filter (fun p => jsToUpper p.ticker == t))
    ∧ (∀ p ∈ positions,
        ∃ a ∈ PortfolioData.aggregateByTicker positions marketByTicker portfolioNameById rates,
          a.ticker = jsToUpper p.ticker)
    ∧ (∀ a ∈ PortfolioData.aggregateByTicker positions marketByTicker portfolioNameById rates,
        a.portfolio_ids.Nodup) := by
  refine ⟨?_, ?_, ?_, ?_⟩
  · unfold PortfolioData.aggregateByTicker
    rw [List.map_map]
    rw [show (Asset.ticker ∘ fun g : String × List PortfolioData.PortfolioPositionRow =>
        PortfolioData.buildAsset marketByTicker portfolioNameById rates g.1 g.2)
        = Prod.fst from by
      funext g
      exact PortfolioData.buildAsset_ticker _ _ _ _ _]
    exact PortfolioData.keys_foldl_groupStep positions [] (by simp)
  · intro t tps hg
    exact PortfolioData.group_eq_filter positions t tps hg
  · intro p hp
    obtain ⟨tps, hg⟩ := PortfolioData.mem_groupByTicker_key positions p hp
    refine ⟨PortfolioData.buildAsset marketByTicker portfolioNameById rates
      (jsToUpper p.ticker) tps, ?_, ?_⟩
    · unfold PortfolioData.aggregateByTicker
      exact List.mem_map.mpr ⟨(jsToUpper p.ticker, tps), hg, rfl⟩
    · exact PortfolioData.buildAsset_ticker _ _ _ _ _
  · intro a ha
    unfold PortfolioData.aggregateByTicker at ha
    rcases List.mem_map.mp ha with ⟨g, _, hga⟩
    rw [← hga, PortfolioData.buildAsset_portfolio_ids]
    exact dedupFirst_nodup _

/-! ### Claims C4 and C5: the governance allocation widget -/

theorem char_toNat_ofNat (n : ℕ) (h : n.isValidChar) : (Char.ofNat n).toNat = n := by
  unfold Char.ofNat
  rw [dif_pos h]
  unfold Char.ofNatAux Char.toNat
  show (UInt32.ofNatCore n _).toNat = n
  simp [UInt32.ofNatCore, UInt32.toNat]

theorem char_toLower_ne_N (c : Char) : Char.toLower c ≠ 'N' := by
  unfold Char.toLower
  by_cases h : c.toNat ≥ 65 ∧ c.toNat ≤ 90
  · rw [if_pos h]
    intro he
    have h1 : (Char.ofNat (c.toNat + 32)).toNat = ('N' : Char).toNat := by rw [he]
    have hv : Nat.isValidChar (c.toNat + 32) := by
      left
      omega
    rw [char_toNat_ofNat _ hv] at h1
    have h2 : ('N' : Char).toNat = 78 := by decide
    omega
  · rw [if_neg h]
    intro he
    rw [he] at h
    exact h (by decide)

theorem capitalizeJs_ne_UNKNOWN (s : String) : capitalizeJs s ≠ "UNKNOWN" := by
  unfold capitalizeJs
  cases hd : s.data with
  | nil => decide
  | cons c cs =>
    intro he
    have hdata : c.toUpper :: cs.map Char.toLower = "UNKNOWN".data := by
      have := congrArg String.data he
      simpa using this
    have hU : "UNKNOWN".data = ['U', 'N', 'K', 'N', 'O', 'W', 'N'] := by decide
    rw [hU] at hdata
    cases cs with
    | nil => simp at hdata
    | cons c2 cs2 =>
      have h2 : Char.toLower c2 = 'N' := by
        simp at hdata
        exact hdata.2.1
      exact char_toLower_ne_N c2 h2

theorem normalizeAssetClass_some (str : String) :
    GovernanceWidget.normalizeAssetClass (some str)
      = (if str = "" then none
        else if jsToUpper str = "EQUITY" ∨ jsToUpper str = "STOCK"
            ∨ jsToUpper str = "STOCKS" then some "Equity"
        else if jsToUpper str = "BOND" ∨ jsToUpper str = "BONDS"
            ∨ jsToUpper str = "FIXED_INCOME" then some "Bond"
        else if jsToUpper str = "CASH" ∨ jsToUpper str = "CASH_EQUIVALENTS" then some "Cash"
        else some (capitalizeJs str)) := rfl

theorem normalizeAssetClass_ne_UNKNOWN (s : Option String) :
    GovernanceWidget.normalizeAssetClass s ≠ some "UNKNOWN" := by
  cases s with
  | none => simp [GovernanceWidget.normalizeAssetClass]
  | some str =>
    rw [normalizeAssetClass_some]
    split_ifs with he hq hb hc
    · simp
    · simp
    · simp
    · simp
    · simpa using capitalizeJs_ne_UNKNOWN str

theorem normalizedClassOf_ne_UNKNOWN (t : GovernanceWidget.GovernanceTarget) :
    GovernanceWidget.normalizedClassOf t ≠ "UNKNOWN" := by
  unfold GovernanceWidget.normalizedClassOf
  cases hn : GovernanceWidget.normalizeAssetClass (some t.asset_class) with
  | none =>
    rw [normalizeAssetClass_some] at hn
    by_cases he : t.asset_class = ""
    · rw [he]
      decide
    · rw [if_neg he] at hn
      split_ifs at hn <;> simp at hn
  | some x =>
    have := normalizeAssetClass_ne_UNKNOWN (some t.asset_class)
    rw [hn] at this
    simpa using this

theorem classKey_eq_UNKNOWN_iff (a : Asset) :
    (GovernanceWidget.classKey a = "UNKNOWN") ↔
      GovernanceWidget.normalizeAssetClass a.asset_class = none := by
  unfold GovernanceWidget.classKey
  cases hn : GovernanceWidget.normalizeAssetClass a.asset_class with
  | none => simp
  | some x =>
    have := normalizeAssetClass_ne_UNKNOWN a.asset_class
    rw [hn] at this
    simp
    simpa using this

theorem allocationByClass_lookup (assets : List Asset) (k : String) :
    (recordGet (GovernanceWidget.allocationByClassOf assets) k).getD 0
      = ((assets.filter (fun a => GovernanceWidget.classKey a == k)).map
          GovernanceWidget.assetValue).sum := by
  unfold GovernanceWidget.allocationByClassOf
  rw [recordGet_foldl_recordAdd GovernanceWidget.classKey GovernanceWidget.assetValue
    assets [] k]
  simp [recordGet]

theorem allocationData_allocation (assets : List Asset)
    (targets : List GovernanceWidget.GovernanceTarget)
    (h1 : assets ≠ []) (h2 : GovernanceWidget.totalValueOf assets ≠ 0) :
    (GovernanceWidget.allocationData assets targets).allocationData =
      (if (if 0 < GovernanceWidget.unknownValueOf assets
          then targets.map (GovernanceWidget.targetEntry assets)
            ++ [GovernanceWidget.unknownEntryOf assets]
          else targets.map (GovernanceWidget.targetEntry assets)) = []
       then (GovernanceWidget.allocationByClassOf assets).map
          (GovernanceWidget.fallbackEntry assets)
       else (if 0 < GovernanceWidget.unknownValueOf assets
          then targets.map (GovernanceWidget.targetEntry assets)
            ++ [GovernanceWidget.unknownEntryOf assets]
          else targets.map (GovernanceWidget.targetEntry assets))) := by
  unfold GovernanceWidget.allocationData
  rw [if_neg h1, if_neg h2]

theorem targetEntry_asset_class (assets : List Asset)
    (t : GovernanceWidget.GovernanceTarget) :
    (GovernanceWidget.targetEntry assets t).asset_class
      = GovernanceWidget.normalizedClassOf t := rfl

theorem targetEntry_current_pct (assets : List Asset)
    (t : GovernanceWidget.GovernanceTarget) :
    (GovernanceWidget.targetEntry assets t).current_pct
      = (if 0 < GovernanceWidget.totalValueOf assets then
          (recordGet (GovernanceWidget.allocationByClassOf assets)
            (GovernanceWidget.normalizedClassOf t)).getD 0
            / GovernanceWidget.totalValueOf assets * 100
        else 0) := rfl

theorem targetEntry_drift (assets : List Asset) (t : GovernanceWidget.GovernanceTarget) :
    (GovernanceWidget.targetEntry assets t).drift
      = (GovernanceWidget.targetEntry assets t).current_pct - t.target_pct := rfl

theorem targetEntry_drift_status (assets : List Asset)
    (t : GovernanceWidget.GovernanceTarget) :
    (GovernanceWidget.targetEntry assets t).drift_status
      = GovernanceWidget.calculateDriftStatus
          ((GovernanceWidget.targetEntry assets t).drift) t.tolerance_band := rfl

/-- C4 — amended: for every governance target, the widget emits an allocation
entry whose current percent is the class's summed `price × (quantity or 1)`
value — in each asset's own quote currency, with no FX conversion — divided by
the same sum over all assets, times 100; drift is current minus target percent
and the status comes from `calculateDriftStatus` over the tolerance band. -/
theorem c4_current_allocation_drift_amended
    (assets : List Asset) (targets : List GovernanceWidget.GovernanceTarget)
    (t : GovernanceWidget.GovernanceTarget)
    (h1 : assets ≠ []) (h2 : 0 < GovernanceWidget.totalValueOf assets)
    (ht : t ∈ targets) :
    ∃ e ∈ (GovernanceWidget.allocationData assets targets).allocationData,
      e.asset_class = GovernanceWidget.normalizedClassOf t
      ∧ e.current_pct = ((assets.filter (fun a =>
            GovernanceWidget.classKey a == GovernanceWidget.normalizedClassOf t)).map
          GovernanceWidget.assetValue).sum / GovernanceWidget.totalValueOf assets * 100
      ∧ e.drift = e.current_pct - t.target_pct
      ∧ e.drift_status = GovernanceWidget.calculateDriftStatus e.drift t.tolerance_band := by
  have hmem : GovernanceWidget.targetEntry assets t
      ∈ targets.map (GovernanceWidget.targetEntry assets) :=
    List.mem_map_of_mem _ ht
  refine ⟨GovernanceWidget.targetEntry assets t, ?_, targetEntry_asset_class assets t, ?_,
    targetEntry_drift assets t, targetEntry_drift_status assets t⟩
  · rw [allocationData_allocation assets targets h1 (ne_of_gt h2)]
    by_cases hu : 0 < GovernanceWidget.unknownValueOf assets
    · rw [if_pos hu, if_neg (by simp)]
      exact List.mem_append_left _ hmem
    · rw [if_neg hu, if_neg (List.ne_nil_of_mem hmem)]
      exact hmem
  · rw [targetEntry_current_pct, if_pos h2, allocationByClass_lookup]

/-- C4 — counterexample: two assets, an Equity priced in USD (price 100 ×
quantity 2, market value 180 EUR at FX 0.9) and a Bond in EUR (price 100 ×
quantity 1, market value 100 EUR).  The widget computes the Equity allocation
as `200/300 × 100 = 200/3 ≈ 66.7%`, while the claim's base-currency market
values give `180/280 × 100 = 450/7 ≈ 64.3%`. -/
theorem c4_current_allocation_counterexample :
    ((GovernanceWidget.allocationData
        [⟨"A", "Apple", "AAPL", 100, "USD", AssetType.Stock, [], some "Equity", some 2,
           none, 2, none, none, 180, none, none, none, [], [], TrendState.UNKNOWN⟩,
         ⟨"B", "Bund", "BND", 100, "EUR", AssetType.Stock, [], some "Bond", some 1,
           none, 1, none, none, 100, none, none, none, [], [], TrendState.UNKNOWN⟩]
        [⟨"t1", "p1", "Equity", 50, 4⟩]).allocationData.map
        GovernanceWidget.AllocationData.current_pct) = [200/3]
    ∧ claimCurrentPctEur
        [⟨"A", "Apple", "AAPL", 100, "USD", AssetType.Stock, [], some "Equity", some 2,
           none, 2, none, none, 180, none, none, none, [], [], TrendState.UNKNOWN⟩,
         ⟨"B", "Bund", "BND", 100, "EUR", AssetType.Stock, [], some "Bond", some 1,
           none, 1, none, none, 100, none, none, none, [], [], TrendState.UNKNOWN⟩]
        "Equity" = 450/7
    ∧ (200/3 : ℚ) ≠ 450/7 := by
  have hA : GovernanceWidget.classKey
      ⟨"A", "Apple", "AAPL", 100, "USD", AssetType.Stock, [], some "Equity", some 2,
        none, 2, none, none, 180, none, none, none, [], [], TrendState.UNKNOWN⟩
      = "Equity" := rfl
  have hB : GovernanceWidget.classKey
      ⟨"B", "Bund", "BND", 100, "EUR", AssetType.Stock, [], some "Bond", some 1,
        none, 1, none, none, 100, none, none, none, [], [], TrendState.UNKNOWN⟩
      = "Bond" := rfl
  have hT : GovernanceWidget.normalizedClassOf ⟨"t1", "p1", "Equity", 50, 4⟩
      = "Equity" := rfl
  have htot : GovernanceWidget.totalValueOf
      [⟨"A", "Apple", "AAPL", 100, "USD", AssetType.Stock, [], some "Equity", some 2,
         none, 2, none, none, 180, none, none, none, [], [], TrendState.UNKNOWN⟩,
       ⟨"B", "Bund", "BND", 100, "EUR", AssetType.Stock, [], some "Bond", some 1,
         none, 1, none, none, 100, none, none, none, [], [], TrendState.UNKNOWN⟩]
      = 300 := by
    unfold GovernanceWidget.totalValueOf GovernanceWidget.assetValue
    norm_num
  have hunk : GovernanceWidget.unknownValueOf
      [⟨"A", "Apple", "AAPL", 100, "USD", AssetType.Stock, [], some "Equity", some 2,
         none, 2, none, none, 180, none, none, none, [], [], TrendState.UNKNOWN⟩,
       ⟨"B", "Bund", "BND", 100, "EUR", AssetType.Stock, [], some "Bond", some 1,
         none, 1, none, none, 100, none, none, none, [], [], TrendState.UNKNOWN⟩]
      = 0 := by
    unfold GovernanceWidget.unknownValueOf
    rw [allocationByClass_lookup, List.filter_cons, List.filter_cons, List.filter_nil,
      hA, hB]
    simp
  have hnotu : ¬ (0 < GovernanceWidget.unknownValueOf
      [⟨"A", "Apple", "AAPL", 100, "USD", AssetType.Stock, [], some "Equity", some 2,
         none, 2, none, none, 180, none, none, none, [], [], TrendState.UNKNOWN⟩,
       ⟨"B", "Bund", "BND", 100, "EUR", AssetType.Stock, [], some "Bond", some 1,
         none, 1, none, none, 100, none, none, none, [], [], TrendState.UNKNOWN⟩]) := by
    rw [hunk]
    norm_num
  refine ⟨?_, ?_, by norm_num⟩
  · rw [allocationData_allocation _ _ (by simp) (by rw [htot]; norm_num)]
    rw [if_neg hnotu]
    rw [if_neg (by simp)]
    rw [List.map_cons, List.map_nil, List.map_cons, List.map_nil]
    rw [targetEntry_current_pct, if_pos (by rw [htot]; norm_num)]
    rw [allocationByClass_lookup, hT, List.filter_cons, List.filter_cons,
      List.filter_nil, hA, hB]
    rw [htot]
    simp only [beq_self_eq_true, if_true]
    rw [show (("Bond" == "Equity") : Bool) = false from by decide]
    unfold GovernanceWidget.assetValue
    norm_num
  · unfold claimCurrentPctEur
    rw [List.filter_cons, List.filter_cons, List.filter_nil, hA, hB]
    rw [show (("Bond" == "Equity") : Bool) = false from by decide]
    simp only [beq_self_eq_true, if_true]
    norm_num

theorem unknownEntryOf_drift_status (assets : List Asset) :
    (GovernanceWidget.unknownEntryOf assets).drift_status
      = (if 10 < GovernanceWidget.unknownPctOf assets then DriftStatus.BREACH
        else DriftStatus.WARNING) := rfl

/-- C5 — confirmed (for a portfolio with positive total value and positive
unclassified value): every holding with no resolvable asset class is pooled
into the single `UNKNOWN` bucket value; for every configured target list the
widget's output contains exactly one `UNKNOWN` entry — the same one whatever
the targets are — and that entry is flagged `BREACH` exactly when the
unclassified value exceeds 10% of total portfolio value. -/
theorem c5_unknown_bucket
    (assets : List Asset)
    (h1 : assets ≠ []) (h2 : 0 < GovernanceWidget.totalValueOf assets)
    (hU : 0 < ((assets.filter (fun a =>
        (GovernanceWidget.normalizeAssetClass a.asset_class).isNone)).map
        GovernanceWidget.assetValue).sum) :
    GovernanceWidget.unknownValueOf assets
        = ((assets.filter (fun a =>
            (GovernanceWidget.normalizeAssetClass a.asset_class).isNone)).map
            GovernanceWidget.assetValue).sum
    ∧ (∀ targets : List GovernanceWidget.GovernanceTarget,
        (GovernanceWidget.allocationData assets targets).allocationData.filter
            (fun e => e.asset_class == "UNKNOWN")
          = [GovernanceWidget.unknownEntryOf assets])
    ∧ ((GovernanceWidget.unknownEntryOf assets).drift_status = DriftStatus.BREACH ↔
        GovernanceWidget.totalValueOf assets / 10 < GovernanceWidget.unknownValueOf assets) := by
  have hpool : GovernanceWidget.unknownValueOf assets
      = ((assets.filter (fun a =>
          (GovernanceWidget.normalizeAssetClass a.asset_class).isNone)).map
          GovernanceWidget.assetValue).sum := by
    unfold GovernanceWidget.unknownValueOf
    rw [allocationByClass_lookup]
    congr 1
    apply congrArg
    apply List.filter_congr
    intro a _
    cases hn : GovernanceWidget.normalizeAssetClass a.asset_class with
    | none =>
      unfold GovernanceWidget.classKey
      rw [hn]
      simp
    | some x =>
      unfold GovernanceWidget.classKey
      rw [hn]
      have hx : x ≠ "UNKNOWN" := by
        have := normalizeAssetClass_ne_UNKNOWN a.asset_class
        rw [hn] at this
        simpa using this
      simpa using hx
  have huv : 0 < GovernanceWidget.unknownValueOf assets := by
    rw [hpool]
    exact hU
  refine ⟨hpool, ?_, ?_⟩
  · intro targets
    rw [allocationData_allocation assets targets h1 (ne_of_gt h2)]
    rw [if_pos huv]
    rw [if_neg (by simp)]
    rw [List.filter_append]
    rw [show (targets.map (GovernanceWidget.targetEntry assets)).filter
        (fun e => e.asset_class == "UNKNOWN") = [] from ?_]
    · rw [List.filter_cons]
      rw [show ((GovernanceWidget.unknownEntryOf assets).asset_class == "UNKNOWN") = true
        from by rfl]
      simp
    · rw [List.filter_eq_nil]
      intro e he
      rcases List.mem_map.mp he with ⟨t, _, hte⟩
      rw [← hte, targetEntry_asset_class]
      simpa using normalizedClassOf_ne_UNKNOWN t
  · rw [unknownEntryOf_drift_status]
    have hpct : GovernanceWidget.unknownPctOf assets
        = GovernanceWidget.unknownValueOf assets / GovernanceWidget.totalValueOf assets
          * 100 := by
      unfold GovernanceWidget.unknownPctOf
      rw [if_pos h2]
    have hkey : (10 < GovernanceWidget.unknownPctOf assets) ↔
        GovernanceWidget.totalValueOf assets / 10
          < GovernanceWidget.unknownValueOf assets := by
      rw [hpct, div_mul_eq_mul_div, lt_div_iff h2,
        div_lt_iff (by norm_num : (0:ℚ) < 10)]
      constructor <;> intro h <;> linarith
    by_cases hlt : 10 < GovernanceWidget.unknownPctOf assets
    · rw [if_pos hlt]
      simp only [true_iff]
      exact hkey.mp hlt
    · rw [if_neg hlt]
      constructor
      · intro h
        exact absurd h (by simp)
      · intro h
        exact absurd (hkey.mpr h) hlt

/-- C5 — witness: a single unclassified asset worth 100 (100% of the
portfolio) produces the lone `UNKNOWN` entry, flagged `BREACH` since its share
exceeds 10%. -/
theorem c5_unknown_bucket_witness :
    (GovernanceWidget.allocationData
        [⟨"U", "Unknown", "UNK", 100, "EUR", AssetType.Stock, [], none, some 1,
           none, 1, none, none, 100, none, none, none, [], [], TrendState.UNKNOWN⟩]
        [⟨"t1", "p1", "EQUITY", 50, 4⟩]).allocationData.filter
        (fun e => e.asset_class == "UNKNOWN")
      = [GovernanceWidget.unknownEntryOf
          [⟨"U", "Unknown", "UNK", 100, "EUR", AssetType.Stock, [], none, some 1,
             none, 1, none, none, 100, none, none, none, [], [], TrendState.UNKNOWN⟩]]
    ∧ ((GovernanceWidget.unknownEntryOf
          [⟨"U", "Unknown", "UNK", 100, "EUR", AssetType.Stock, [], none, some 1,
             none, 1, none, none, 100, none, none, none, [], [], TrendState.UNKNOWN⟩]).drift_status
          = DriftStatus.BREACH ↔
        GovernanceWidget.totalValueOf
            [⟨"U", "Unknown", "UNK", 100, "EUR", AssetType.Stock, [], none, some 1,
               none, 1, none, none, 100, none, none, none, [], [], TrendState.UNKNOWN⟩] / 10
          < GovernanceWidget.unknownValueOf
            [⟨"U", "Unknown", "UNK", 100, "EUR", AssetType.Stock, [], none, some 1,
               none, 1, none, none, 100, none, none, none, [], [], TrendState.UNKNOWN⟩]) := by
  have h := c5_unknown_bucket
    [⟨"U", "Unknown", "UNK", 100, "EUR", AssetType.Stock, [], none, some 1,
       none, 1, none, none, 100, none, none, none, [], [], TrendState.UNKNOWN⟩]
    (by simp)
    (by unfold GovernanceWidget.totalValueOf GovernanceWidget.assetValue; norm_num)
    (by
      rw [List.filter_cons, List.filter_nil]
      rw [show (GovernanceWidget.normalizeAssetClass
          (⟨"U", "Unknown", "UNK", 100, "EUR", AssetType.Stock, [], none, some 1,
             none, 1, none, none, 100, none, none, none, [], [],
             TrendState.UNKNOWN⟩ : Asset).asset_class).isNone = true from rfl]
      unfold GovernanceWidget.assetValue
      norm_num)
  exact ⟨h.2.1 [⟨"t1", "p1", "EQUITY", 50, 4⟩], h.2.2⟩

/-- C4 — witness for the amended theorem: with the USD Equity and EUR Bond
assets and an Equity target, the emitted Equity entry carries
`current_pct = 200/3`. -/
theorem c4_current_allocation_drift_witness :
    ∃ e ∈ (GovernanceWidget.allocationData
        [⟨"A", "Apple", "AAPL", 100, "USD", AssetType.Stock, [], some "Equity", some 2,
           none, 2, none, none, 180, none, none, none, [], [], TrendState.UNKNOWN⟩,
         ⟨"B", "Bund", "BND", 100, "EUR", AssetType.Stock, [], some "Bond", some 1,
           none, 1, none, none, 100, none, none, none, [], [], TrendState.UNKNOWN⟩]
        [⟨"t1", "p1", "Equity", 50, 4⟩]).allocationData,
      e.asset_class = "Equity" ∧ e.current_pct = 200/3 := by
  have hA : GovernanceWidget.classKey
      ⟨"A", "Apple", "AAPL", 100, "USD", AssetType.Stock, [], some "Equity", some 2,
        none, 2, none, none, 180, none, none, none, [], [], TrendState.UNKNOWN⟩
      = "Equity" := rfl
  have hB : GovernanceWidget.classKey
      ⟨"B", "Bund", "BND", 100, "EUR", AssetType.Stock, [], some "Bond", some 1,
        none, 1, none, none, 100, none, none, none, [], [], TrendState.UNKNOWN⟩
      = "Bond" := rfl
  have hT : GovernanceWidget.normalizedClassOf ⟨"t1", "p1", "Equity", 50, 4⟩
      = "Equity" := rfl
  have htot : GovernanceWidget.totalValueOf
      [⟨"A", "Apple", "AAPL", 100, "USD", AssetType.Stock, [], some "Equity", some 2,
         none, 2, none, none, 180, none, none, none, [], [], TrendState.UNKNOWN⟩,
       ⟨"B", "Bund", "BND", 100, "EUR", AssetType.Stock, [], some "Bond", some 1,
         none, 1, none, none, 100, none, none, none, [], [], TrendState.UNKNOWN⟩]
      = 300 := by
    unfold GovernanceWidget.totalValueOf GovernanceWidget.assetValue
    norm_num
  obtain ⟨e, he, hcls, hpct, _, _⟩ := c4_current_allocation_drift_amended
    [⟨"A", "Apple", "AAPL", 100, "USD", AssetType.Stock, [], some "Equity", some 2,
       none, 2, none, none, 180, none, none, none, [], [], TrendState.UNKNOWN⟩,
     ⟨"B", "Bund", "BND", 100, "EUR", AssetType.Stock, [], some "Bond", some 1,
       none, 1, none, none, 100, none, none, none, [], [], TrendState.UNKNOWN⟩]
    [⟨"t1", "p1", "Equity", 50, 4⟩] ⟨"t1", "p1", "Equity", 50, 4⟩
    (by simp) (by rw [htot]; norm_num) (by simp)
  refine ⟨e, he, ?_, ?_⟩
  · rw [hcls, hT]
  · rw [hpct, hT, List.filter_cons, List.filter_cons, List.filter_nil, hA, hB]
    rw [show (("Bond" == "Equity") : Bool) = false from by decide]
    simp only [beq_self_eq_true, if_true]
    rw [htot]
    unfold GovernanceWidget.assetValue
    norm_num

/-! ### Claim C9: RSI bounds -/

namespace TechnicalIndicators

theorem wilderRsis_length (period : ℕ) :
    ∀ (l : List (ℚ × ℚ)) (ag al : ℚ), (wilderRsis period ag al l).length = l.length := by
  intro l
  induction l with
  | nil => intro ag al; rfl
  | cons gl rest ih =>
    intro ag al
    unfold wilderRsis
    rw [List.length_cons, ih]
    rfl

theorem rsiFromAverages_bounds (ag al : ℚ) (hg : 0 ≤ ag) (hl : 0 ≤ al) :
    0 ≤ rsiFromAverages ag al ∧ rsiFromAverages ag al ≤ 100 := by
  unfold rsiFromAverages
  by_cases h : al = 0
  · rw [if_pos h]
    norm_num
  · rw [if_neg h]
    have hal : 0 < al := lt_of_le_of_ne hl (Ne.symm h)
    have hrs : 0 ≤ ag / al := div_nonneg hg (le_of_lt hal)
    have hD : (1 : ℚ) ≤ 1 + ag / al := by linarith
    have h1 : 100 / (1 + ag / al) ≤ 100 := div_le_self (by norm_num) hD
    have h2 : 0 < 100 / (1 + ag / al) := div_pos (by norm_num) (by linarith)
    constructor <;> linarith

theorem wilder_mem_bounds (period : ℕ) (hp : 1 ≤ period) :
    ∀ (l : List (ℚ × ℚ)) (ag al : ℚ), 0 ≤ ag → 0 ≤ al →
      (∀ gl ∈ l, 0 ≤ gl.1 ∧ 0 ≤ gl.2) →
      ∀ x ∈ wilderRsis period ag al l, 0 ≤ x ∧ x ≤ 100 := by
  intro l
  induction l with
  | nil => intro ag al _ _ _ x hx; simp [wilderRsis] at hx
  | cons gl rest ih =>
    intro ag al hag hal hnn x hx
    have hper : (0 : ℚ) < period := by
      have h1 : (1 : ℚ) ≤ period := by exact_mod_cast hp
      linarith
    have hper1 : (0 : ℚ) ≤ (period : ℚ) - 1 := by
      have h1 : (1 : ℚ) ≤ period := by exact_mod_cast hp
      linarith
    have hgl := hnn gl (List.mem_cons_self gl rest)
    have hag' : 0 ≤ (ag * ((period : ℚ) - 1) + gl.1) / period :=
      div_nonneg (add_nonneg (mul_nonneg hag hper1) hgl.1) (le_of_lt hper)
    have hal' : 0 ≤ (al * ((period : ℚ) - 1) + gl.2) / period :=
      div_nonneg (add_nonneg (mul_nonneg hal hper1) hgl.2) (le_of_lt hper)
    unfold wilderRsis at hx
    rcases List.mem_cons.mp hx with hx | hx
    · rw [hx]
      exact rsiFromAverages_bounds _ _ hag' hal'
    · exact ih _ _ hag' hal' (fun g hg => hnn g (List.mem_cons_of_mem gl hg)) x hx

theorem wilder_all_100 (period : ℕ) :
    ∀ (l : List (ℚ × ℚ)) (ag : ℚ), (∀ gl ∈ l, gl.2 = 0) →
      ∀ x ∈ wilderRsis period ag 0 l, x = 100 := by
  intro l
  induction l with
  | nil => intro ag _ x hx; simp [wilderRsis] at hx
  | cons gl rest ih =>
    intro ag hz x hx
    have hgl : gl.2 = 0 := hz gl (List.mem_cons_self gl rest)
    have hal : ((0 : ℚ) * ((period : ℚ) - 1) + gl.2) / period = 0 := by
      rw [hgl]
      simp
    unfold wilderRsis at hx
    rw [hal] at hx
    rcases List.mem_cons.mp hx with hx | hx
    · rw [hx]
      unfold rsiFromAverages
      rw [if_pos rfl]
    · exact ih _ (fun g hg => hz g (List.mem_cons_of_mem gl hg)) x hx

theorem deltasOf_nonneg (values : List ℚ) (hchain : values.Chain' (· ≤ ·)) :
    ∀ d ∈ deltasOf values, 0 ≤ d := by
  induction values with
  | nil => intro d hd; simp [deltasOf] at hd
  | cons a t ih =>
    intro d hd
    cases t with
    | nil => simp [deltasOf] at hd
    | cons b t2 =>
      have hab : a ≤ b := (List.chain'_cons.mp hchain).1
      have hrest : (b :: t2).Chain' (· ≤ ·) := (List.chain'_cons.mp hchain).2
      rcases List.mem_cons.mp hd with hd | hd
      · rw [hd]
        show 0 ≤ b - a
        linarith
      · exact ih hrest d hd

theorem getD_replicate_none (n i : ℕ) :
    (List.replicate n (none : Option ℚ)).getD i none = none := by
  induction n generalizing i with
  | zero => simp
  | succ n ih =>
    cases i with
    | zero => simp [List.replicate]
    | succ j => simpa [List.replicate] using ih j

theorem getD_map_none (values : List ℚ) (i : ℕ) :
    (values.map (fun _ => (none : Option ℚ))).getD i none = none := by
  unfold List.getD
  cases hq : (values.map (fun _ => (none : Option ℚ))).get? i with
  | none => simp
  | some o =>
    have ho : o = none := by
      rcases List.get?_eq_some.mp hq with ⟨h, he⟩
      rw [← he]
      simp
    simp [ho]

theorem getD_eq_some_mem (l : List (Option ℚ)) (i : ℕ) (x : ℚ)
    (h : l.getD i none = some x) : some x ∈ l := by
  unfold List.getD at h
  cases hq : l.get? i with
  | none => rw [hq] at h; simp at h
  | some o =>
    rw [hq] at h
    simp at h
    rw [h] at hq
    exact List.get?_mem hq

theorem calculateRSI_main_eq (values : List ℚ) (h0 : ¬ values = [])
    (hlen : ¬ values.length ≤ 14) :
    calculateRSI values 14 =
      (List.replicate 14 (none : Option ℚ))
        ++ some (rsiFromAverages
              ((((deltasOf values).map gainOf).take 14).sum / ((14 : ℕ) : ℚ))
              ((((deltasOf values).map lossOf).take 14).sum / ((14 : ℕ) : ℚ)))
          :: (wilderRsis 14
                ((((deltasOf values).map gainOf).take 14).sum / ((14 : ℕ) : ℚ))
                ((((deltasOf values).map lossOf).take 14).sum / ((14 : ℕ) : ℚ))
                ((((deltasOf values).map gainOf).drop 14).zip
                  (((deltasOf values).map lossOf).drop 14))).map some := by
  unfold calculateRSI
  rw [if_neg h0, if_neg (by norm_num), if_neg hlen]

/-- C9 — confirmed: `calculateRSI` at period 14 returns a list of the input's
length that is null at every index below 14; every defined value lies in
`[0, 100]`; and on a non-decreasing series (every delta is a gain, so the
running average loss stays zero) every defined value is exactly 100. -/
theorem c9_rsi_bounds (values : List ℚ) :
    (calculateRSI values 14).length = values.length
    ∧ (∀ i, i < 14 → (calculateRSI values 14).getD i none = none)
    ∧ (∀ i x, (calculateRSI values 14).getD i none = some x → 0 ≤ x ∧ x ≤ 100)
    ∧ (values.Chain' (· ≤ ·) →
        ∀ i x, (calculateRSI values 14).getD i none = some x → x = 100) := by
  by_cases h0 : values = []
  · subst h0
    refine ⟨rfl, ?_, ?_, ?_⟩
    · intro i _
      simp [calculateRSI]
    · intro i x hx
      simp [calculateRSI] at hx
    · intro _ i x hx
      simp [calculateRSI] at hx
  · by_cases hlen : values.length ≤ 14
    · have heq : calculateRSI values 14 = values.map (fun _ => none) := by
        unfold calculateRSI
        rw [if_neg h0, if_neg (by norm_num), if_pos hlen]
      refine ⟨by rw [heq]; simp, ?_, ?_, ?_⟩
      · intro i _
        rw [heq]
        exact getD_map_none values i
      · intro i x hx
        rw [heq, getD_map_none] at hx
        exact absurd hx (by simp)
      · intro _ i x hx
        rw [heq, getD_map_none] at hx
        exact absurd hx (by simp)
    · have heq := calculateRSI_main_eq values h0 hlen
      have hdlen : (deltasOf values).length = values.length - 1 := by
        unfold deltasOf
        rw [List.length_zipWith, List.length_tail]
        omega
      have hglen : ((deltasOf values).map gainOf).length = values.length - 1 := by
        rw [List.length_map, hdlen]
      have hllen : ((deltasOf values).map lossOf).length = values.length - 1 := by
        rw [List.length_map, hdlen]
      have hgain_nn : ∀ y ∈ (deltasOf values).map gainOf, 0 ≤ y := by
        intro y hy
        rcases List.mem_map.mp hy with ⟨d, _, hd⟩
        rw [← hd]
        unfold gainOf
        split_ifs with h
        · linarith
        · exact le_refl 0
      have hloss_nn : ∀ y ∈ (deltasOf values).map lossOf, 0 ≤ y := by
        intro y hy
        rcases List.mem_map.mp hy with ⟨d, _, hd⟩
        rw [← hd]
        unfold lossOf
        split_ifs with h
        · linarith
        · exact le_refl 0
      have hseedG : 0 ≤ (((deltasOf values).map gainOf).take 14).sum / ((14 : ℕ) : ℚ) := by
        apply div_nonneg _ (by norm_num)
        apply List.sum_nonneg
        intro y hy
        exact hgain_nn y (List.mem_of_mem_take hy)
      have hseedL : 0 ≤ (((deltasOf values).map lossOf).take 14).sum / ((14 : ℕ) : ℚ) := by
        apply div_nonneg _ (by norm_num)
        apply List.sum_nonneg
        intro y hy
        exact hloss_nn y (List.mem_of_mem_take hy)
      refine ⟨?_, ?_, ?_, ?_⟩
      · rw [heq]
        rw [List.length_append, List.length_replicate, List.length_cons,
          List.length_map, wilderRsis_length, List.length_zip, List.length_drop,
          List.length_drop, hglen, hllen]
        omega
      · intro i hi
        rw [heq]
        unfold List.getD
        rw [List.get?_append (by rw [List.length_replicate]; exact hi)]
        have hrep := getD_replicate_none 14 i
        unfold List.getD at hrep
        exact hrep
      · intro i x hx
        rw [heq] at hx
        have hmem := getD_eq_some_mem _ i x hx
        rcases List.mem_append.mp hmem with hmem | hmem
        · exact absurd (List.eq_of_mem_replicate hmem) (by simp)
        · rcases List.mem_cons.mp hmem with hmem | hmem
          · have hxeq : x = rsiFromAverages
                ((((deltasOf values).map gainOf).take 14).sum / ((14 : ℕ) : ℚ))
                ((((deltasOf values).map lossOf).take 14).sum / ((14 : ℕ) : ℚ)) := by
              simpa using hmem
            rw [hxeq]
            exact rsiFromAverages_bounds _ _ hseedG hseedL
          · rcases List.mem_map.mp hmem with ⟨y, hy, hyx⟩
            have hxy : y = x := by simpa using hyx
            rw [← hxy]
            refine wilder_mem_bounds 14 (by norm_num) _ _ _ hseedG hseedL ?_ y hy
            intro gl hgl
            have hz := List.of_mem_zip hgl
            exact ⟨hgain_nn gl.1 (List.mem_of_mem_drop hz.1),
              hloss_nn gl.2 (List.mem_of_mem_drop hz.2)⟩
      · intro hchain i x hx
        have hloss0 : ∀ y ∈ (deltasOf values).map lossOf, y = 0 := by
          intro y hy
          rcases List.mem_map.mp hy with ⟨d, hd, hdy⟩
          have hdnn := deltasOf_nonneg values hchain d hd
          rw [← hdy]
          unfold lossOf
          rw [if_neg (by linarith)]
        have hseed0 : (((deltasOf values).map lossOf).take 14).sum / ((14 : ℕ) : ℚ) = 0 := by
          rw [List.sum_eq_zero]
          · norm_num
          · intro y hy
            exact hloss0 y (List.mem_of_mem_take hy)
        rw [heq, hseed0] at hx
        have hmem := getD_eq_some_mem _ i x hx
        rcases List.mem_append.mp hmem with hmem | hmem
        · exact absurd (List.eq_of_mem_replicate hmem) (by simp)
        · rcases List.mem_cons.mp hmem with hmem | hmem
          · have hxeq : x = rsiFromAverages
                ((((deltasOf values).map gainOf).take 14).sum / ((14 : ℕ) : ℚ)) 0 := by
              simpa using hmem
            rw [hxeq]
            unfold rsiFromAverages
            rw [if_pos rfl]
          · rcases List.mem_map.mp hmem with ⟨y, hy, hyx⟩
            have hxy : y = x := by simpa using hyx
            rw [← hxy]
            refine wilder_all_100 14 _ _ ?_ y hy
            intro gl hgl
            have hz := List.of_mem_zip hgl
            exact hloss0 gl.2 (List.mem_of_mem_drop hz.2)

end TechnicalIndicators
